import Mathlib

/-!
Verification of the planar tooth-boundary picking and annotation-geometry
subsystem of the mesh-visualiser repository.

The embedding translates the TypeScript/three.js source into Lean over exact
real arithmetic (`ℝ` stands for the IEEE doubles of the source; floating
tolerance claims become exact statements).  JavaScript `NaN` is not
representable in `ℝ`; where the source would produce `NaN` (divisions by a
zero that the source does not guard), Lean's `x / 0 = 0` convention produces
junk values instead — no claim below depends on the value of such junk.

Sources embedded here:
  * `src/utils/ToothPicker.ts` (`newellPlane`, `buildBasis`,
    `pointInPolygon2D`, `pointToSegmentDistance2D`, `distanceToPolygon2D`,
    `ToothPicker` and its `raycast`, `buildToothPickersById`),
  * `src/pages/ViewerPage.tsx` (`handleBlur`, `handleChange`,
    `changeNumA`/`changeNumB`),
  * `src/pages/UploadPage.tsx` (`HollowSleeveOnSpline`),
  * the relevant parts of the three.js library the source calls into
    (`Vector3.normalize`, `Matrix4.makeBasis/setPosition/invert`,
    `Ray.intersectPlane`, `Plane.setFromNormalAndCoplanarPoint`).
-/

noncomputable section

open Classical

/-! ## Vectors -/

/-- A 3D vector / point (three.js `Vector3`). -/
structure Vec3 where
  x : ℝ
  y : ℝ
  z : ℝ
deriving DecidableEq

/-- A 2D vector / point (three.js `Vector2`). -/
structure Vec2 where
  x : ℝ
  y : ℝ
deriving DecidableEq

namespace Vec3

theorem ext3 {a b : Vec3} (hx : a.x = b.x) (hy : a.y = b.y) (hz : a.z = b.z) : a = b := by
  cases a; cases b; simp_all

instance : Zero Vec3 := ⟨⟨0, 0, 0⟩⟩

instance : Add Vec3 := ⟨fun a b => ⟨a.x + b.x, a.y + b.y, a.z + b.z⟩⟩

instance : Sub Vec3 := ⟨fun a b => ⟨a.x - b.x, a.y - b.y, a.z - b.z⟩⟩

instance : Neg Vec3 := ⟨fun a => ⟨-a.x, -a.y, -a.z⟩⟩

instance : SMul ℝ Vec3 := ⟨fun r a => ⟨r * a.x, r * a.y, r * a.z⟩⟩

@[simp] theorem zero_x : (0 : Vec3).x = 0 := rfl
@[simp] theorem zero_y : (0 : Vec3).y = 0 := rfl
@[simp] theorem zero_z : (0 : Vec3).z = 0 := rfl
@[simp] theorem add_x (a b : Vec3) : (a + b).x = a.x + b.x := rfl
@[simp] theorem add_y (a b : Vec3) : (a + b).y = a.y + b.y := rfl
@[simp] theorem add_z (a b : Vec3) : (a + b).z = a.z + b.z := rfl
@[simp] theorem sub_x (a b : Vec3) : (a - b).x = a.x - b.x := rfl
@[simp] theorem sub_y (a b : Vec3) : (a - b).y = a.y - b.y := rfl
@[simp] theorem sub_z (a b : Vec3) : (a - b).z = a.z - b.z := rfl
@[simp] theorem neg_x (a : Vec3) : (-a).x = -a.x := rfl
@[simp] theorem neg_y (a : Vec3) : (-a).y = -a.y := rfl
@[simp] theorem neg_z (a : Vec3) : (-a).z = -a.z := rfl
@[simp] theorem smul_x (r : ℝ) (a : Vec3) : (r • a).x = r * a.x := rfl
@[simp] theorem smul_y (r : ℝ) (a : Vec3) : (r • a).y = r * a.y := rfl
@[simp] theorem smul_z (r : ℝ) (a : Vec3) : (r • a).z = r * a.z := rfl
@[simp] theorem mk_x (a b c : ℝ) : (Vec3.mk a b c).x = a := rfl
@[simp] theorem mk_y (a b c : ℝ) : (Vec3.mk a b c).y = b := rfl
@[simp] theorem mk_z (a b c : ℝ) : (Vec3.mk a b c).z = c := rfl

end Vec3

namespace Vec2

theorem ext2 {a b : Vec2} (hx : a.x = b.x) (hy : a.y = b.y) : a = b := by
  cases a; cases b; simp_all

instance : Zero Vec2 := ⟨⟨0, 0⟩⟩

instance : Add Vec2 := ⟨fun a b => ⟨a.x + b.x, a.y + b.y⟩⟩

instance : Sub Vec2 := ⟨fun a b => ⟨a.x - b.x, a.y - b.y⟩⟩

instance : SMul ℝ Vec2 := ⟨fun r a => ⟨r * a.x, r * a.y⟩⟩

@[simp] theorem v2zero_x : (0 : Vec2).x = 0 := rfl
@[simp] theorem v2zero_y : (0 : Vec2).y = 0 := rfl
@[simp] theorem v2add_x (a b : Vec2) : (a + b).x = a.x + b.x := rfl
@[simp] theorem v2add_y (a b : Vec2) : (a + b).y = a.y + b.y := rfl
@[simp] theorem v2sub_x (a b : Vec2) : (a - b).x = a.x - b.x := rfl
@[simp] theorem v2sub_y (a b : Vec2) : (a - b).y = a.y - b.y := rfl
@[simp] theorem v2smul_x (r : ℝ) (a : Vec2) : (r • a).x = r * a.x := rfl
@[simp] theorem v2smul_y (r : ℝ) (a : Vec2) : (r • a).y = r * a.y := rfl
@[simp] theorem v2mk_x (a b : ℝ) : (Vec2.mk a b).x = a := rfl
@[simp] theorem v2mk_y (a b : ℝ) : (Vec2.mk a b).y = b := rfl

end Vec2

/-- Dot product of 3D vectors (three.js `Vector3.dot`). -/
def dot3 (a b : Vec3) : ℝ := a.x * b.x + a.y * b.y + a.z * b.z

/-- Cross product of 3D vectors (three.js `Vector3.crossVectors`). -/
def cross3 (a b : Vec3) : Vec3 :=
  ⟨a.y * b.z - a.z * b.y, a.z * b.x - a.x * b.z, a.x * b.y - a.y * b.x⟩

/-- Euclidean length (three.js `Vector3.length`). -/
def norm3 (v : Vec3) : ℝ := Real.sqrt (dot3 v v)

/-- Distance between points (three.js `Vector3.distanceTo`). -/
def dist3 (a b : Vec3) : ℝ := norm3 (b - a)

/-- 2D Euclidean length (`Math.hypot` over the components). -/
def norm2 (v : Vec2) : ℝ := Real.sqrt (v.x * v.x + v.y * v.y)

/-- three.js `Vector3.normalize`: `divideScalar(this.length() || 1)`.
The JavaScript `||` yields `1` when the length is `0`, so the zero vector is
left unchanged (no `NaN`). -/
def v3normalize (v : Vec3) : Vec3 :=
  (1 / (if norm3 v = 0 then 1 else norm3 v)) • v

theorem dot3_comm (a b : Vec3) : dot3 a b = dot3 b a := by
  simp only [dot3]; ring

theorem dot3_nonneg (v : Vec3) : 0 ≤ dot3 v v := by
  simp only [dot3]
  nlinarith [mul_self_nonneg v.x, mul_self_nonneg v.y, mul_self_nonneg v.z]

theorem dot3_eq_zero_iff (v : Vec3) : dot3 v v = 0 ↔ v = 0 := by
  constructor
  · intro h
    simp only [dot3] at h
    have hx : v.x = 0 := by nlinarith [sq_nonneg v.x, sq_nonneg v.y, sq_nonneg v.z]
    have hy : v.y = 0 := by nlinarith [sq_nonneg v.x, sq_nonneg v.y, sq_nonneg v.z]
    have hz : v.z = 0 := by nlinarith [sq_nonneg v.x, sq_nonneg v.y, sq_nonneg v.z]
    exact Vec3.ext3 hx hy hz
  · intro h; subst h; simp [dot3]

theorem norm3_eq_zero_iff (v : Vec3) : norm3 v = 0 ↔ v = 0 := by
  rw [norm3, Real.sqrt_eq_zero (dot3_nonneg v)]
  exact dot3_eq_zero_iff v

theorem norm3_zero : norm3 (0 : Vec3) = 0 := by
  rw [norm3_eq_zero_iff]

@[simp] theorem v3normalize_zero : v3normalize (0 : Vec3) = 0 := by
  apply Vec3.ext3 <;> simp [v3normalize]

theorem v3normalize_of_ne_zero {v : Vec3} (h : v ≠ 0) :
    v3normalize v = (1 / norm3 v) • v := by
  have : norm3 v ≠ 0 := fun hz => h ((norm3_eq_zero_iff v).mp hz)
  simp [v3normalize, this]

theorem dot3_smul_smul (r s : ℝ) (a b : Vec3) :
    dot3 (r • a) (s • b) = r * s * dot3 a b := by
  simp only [dot3, Vec3.smul_x, Vec3.smul_y, Vec3.smul_z]; ring

theorem norm3_normalize {v : Vec3} (h : v ≠ 0) : norm3 (v3normalize v) = 1 := by
  have hd : dot3 v v ≠ 0 := fun hz => h ((dot3_eq_zero_iff v).mp hz)
  have hdpos : 0 < dot3 v v := lt_of_le_of_ne (dot3_nonneg v) (Ne.symm hd)
  have hn : 0 < norm3 v := Real.sqrt_pos.mpr hdpos
  rw [v3normalize_of_ne_zero h, norm3, dot3_smul_smul]
  have hsq : norm3 v * norm3 v = dot3 v v := Real.mul_self_sqrt (dot3_nonneg v)
  have : 1 / norm3 v * (1 / norm3 v) * dot3 v v = 1 := by
    field_simp
    nlinarith [hsq]
  rw [this, Real.sqrt_one]

theorem neg_eq_negone_smul (v : Vec3) : -v = (-1 : ℝ) • v := by
  apply Vec3.ext3 <;> simp

theorem v3normalize_neg (v : Vec3) : v3normalize (-v) = -(v3normalize v) := by
  have hnn : norm3 (-v) = norm3 v := by
    simp only [norm3, dot3, Vec3.neg_x, Vec3.neg_y, Vec3.neg_z]
    ring_nf
  by_cases h : v = 0
  · subst h
    have : -(0 : Vec3) = 0 := by apply Vec3.ext3 <;> simp
    rw [this, v3normalize_zero]
    apply Vec3.ext3 <;> simp
  · have h' : -v ≠ 0 := by
      intro hc
      apply h
      apply Vec3.ext3
      · have := congrArg Vec3.x hc; simpa using this
      · have := congrArg Vec3.y hc; simpa using this
      · have := congrArg Vec3.z hc; simpa using this
    rw [v3normalize_of_ne_zero h', v3normalize_of_ne_zero h, hnn]
    apply Vec3.ext3 <;> simp

/-! ## The cyclic-pair loop pattern

Both `newellPlane` and `pointInPolygon2D`/`distanceToPolygon2D` iterate with
`for (let i = 0, j = n - 1; i < n; j = i++)`, visiting the pairs
`(p[j], p[i])` — i.e. `(previous, current)` with the wrap `(p[n-1], p[0])`
first.  `cyclicPairs` produces exactly that pair sequence. -/

/-- The `(previous, current)` index pairs visited by the source's wrapped
loops, in loop order: `(pₙ₋₁, p₀), (p₀, p₁), …, (pₙ₋₂, pₙ₋₁)`. -/
def cyclicPairs {α : Type} (l : List α) : List (α × α) :=
  match l.getLast? with
  | none => []
  | some z => (z :: l.dropLast).zip l

@[simp] theorem cyclicPairs_nil {α : Type} : cyclicPairs ([] : List α) = [] := rfl

/-- Sum of a real-valued edge function over the wrapped loop. -/
def cyclicSum {α : Type} (f : α → α → ℝ) (l : List α) : ℝ :=
  ((cyclicPairs l).map (fun q => f q.1 q.2)).sum

/-- Sum of an edge function over the unwrapped chain
`(p₀,p₁), (p₁,p₂), …`. -/
def chainR {α : Type} (f : α → α → ℝ) : List α → ℝ
  | a :: b :: r => f a b + chainR f (b :: r)
  | _ => 0

@[simp] theorem chainR_nil {α : Type} (f : α → α → ℝ) : chainR f [] = 0 := rfl

@[simp] theorem chainR_single {α : Type} (f : α → α → ℝ) (a : α) : chainR f [a] = 0 := rfl

@[simp] theorem chainR_cons_cons {α : Type} (f : α → α → ℝ) (a b : α) (r : List α) :
    chainR f (a :: b :: r) = f a b + chainR f (b :: r) := rfl

theorem zip_dropLast_tail {α : Type} (l : List α) :
    (l.dropLast).zip l.tail = l.zip l.tail := by
  induction l with
  | nil => simp
  | cons a r ih =>
    cases r with
    | nil => simp
    | cons b r' =>
      simp only [List.tail_cons] at ih
      simp only [List.dropLast_cons₂, List.zip_cons_cons, List.tail_cons]
      rw [ih]

theorem cyclicPairs_cons {α : Type} (l : List α) (h : l ≠ []) :
    cyclicPairs l = (l.getLast h, l.head h) :: l.zip l.tail := by
  unfold cyclicPairs
  rw [List.getLast?_eq_getLast l h]
  cases l with
  | nil => exact absurd rfl h
  | cons a r =>
    simp only [List.zip_cons_cons, List.head_cons]
    congr 1
    rw [← zip_dropLast_tail]
    rfl

theorem chainR_eq_zip_sum {α : Type} (f : α → α → ℝ) (l : List α) :
    ((l.zip l.tail).map (fun q => f q.1 q.2)).sum = chainR f l := by
  induction l with
  | nil => simp
  | cons a r ih =>
    cases r with
    | nil => simp
    | cons b r' =>
      simp only [List.tail_cons, List.zip_cons_cons, List.map_cons, List.sum_cons,
        chainR_cons_cons]
      rw [← ih]
      rfl

theorem cyclicSum_eq {α : Type} (f : α → α → ℝ) (l : List α) (h : l ≠ []) :
    cyclicSum f l = f (l.getLast h) (l.head h) + chainR f l := by
  rw [cyclicSum, cyclicPairs_cons l h]
  simp only [List.map_cons, List.sum_cons]
  rw [chainR_eq_zip_sum]

theorem chainR_append_singleton {α : Type} (f : α → α → ℝ) (l : List α) (x : α)
    (h : l ≠ []) :
    chainR f (l ++ [x]) = chainR f l + f (l.getLast h) x := by
  induction l with
  | nil => exact absurd rfl h
  | cons a r ih =>
    cases r with
    | nil => simp [chainR]
    | cons b r' =>
      have hne : b :: r' ≠ [] := by simp
      have ih' := ih hne
      simp only [List.cons_append] at ih' ⊢
      simp only [chainR_cons_cons]
      rw [ih']
      simp only [List.getLast_cons hne]
      ring

theorem chainR_reverse {α : Type} (f : α → α → ℝ)
    (hf : ∀ a b, f b a = -f a b) (l : List α) :
    chainR f l.reverse = -chainR f l := by
  induction l with
  | nil => simp
  | cons a r ih =>
    cases r with
    | nil => simp
    | cons b r' =>
      have hne : (b :: r').reverse ≠ [] := by simp
      rw [List.reverse_cons]
      rw [chainR_append_singleton f ((b :: r').reverse) a hne]
      rw [ih]
      have hlast : ((b :: r').reverse).getLast hne = b := by
        rw [List.getLast_reverse]; rfl
      rw [hlast, hf a b]
      simp only [chainR_cons_cons]
      ring

theorem chainR_map {α β : Type} (f : α → α → ℝ) (q : β → α) (l : List β) :
    chainR f (l.map q) = chainR (fun s t => f (q s) (q t)) l := by
  induction l with
  | nil => simp
  | cons a r ih =>
    cases r with
    | nil => simp
    | cons b r' =>
      simp only [List.map_cons, chainR_cons_cons]
      rw [← ih]
      rfl

theorem chainR_telescope {α : Type} (G : α → ℝ) (l : List α) (x0 : α) :
    chainR (fun a b => G a - G b) l = G (l.headD x0) - G (l.getLastD x0) := by
  induction l with
  | nil => simp
  | cons a r ih =>
    cases r with
    | nil => simp
    | cons b r' =>
      simp only [chainR_cons_cons, List.headD_cons]
      rw [ih]
      simp only [List.headD_cons, List.getLastD_cons]
      ring

/-- A cyclic sum of a telescoping edge function over a closed loop is zero. -/
theorem cyclicSum_telescope {α : Type} (G : α → ℝ) (l : List α) (h : l ≠ []) :
    cyclicSum (fun a b => G a - G b) l = 0 := by
  rw [cyclicSum_eq _ l h, chainR_telescope G l (l.head h)]
  rw [List.headD_eq_head?, List.head?_eq_head h, List.getLastD_eq_getLast?,
    List.getLast?_eq_getLast l h]
  simp

theorem cyclicSum_reverse {α : Type} (f : α → α → ℝ)
    (hf : ∀ a b, f b a = -f a b) (l : List α) :
    cyclicSum f l.reverse = -cyclicSum f l := by
  by_cases h : l = []
  · subst h; simp [cyclicSum]
  · have hr : l.reverse ≠ [] := by simpa using h
    rw [cyclicSum_eq f l.reverse hr, cyclicSum_eq f l h]
    rw [List.getLast_reverse, List.head_reverse]
    rw [chainR_reverse f hf l, hf]
    ring

theorem cyclicPairs_map {α β : Type} (q : β → α) (l : List β) :
    cyclicPairs (l.map q) = (cyclicPairs l).map (fun ab => (q ab.1, q ab.2)) := by
  unfold cyclicPairs
  rw [List.getLast?_map]
  cases hl : l.getLast? with
  | none => simp
  | some z =>
    simp only [Option.map_some']
    rw [← List.map_dropLast]
    rw [show (q z :: (l.dropLast).map q) = (z :: l.dropLast).map q from rfl]
    rw [List.zip_map]
    simp [List.map_map]

theorem cyclicSum_map {α β : Type} (f : α → α → ℝ) (q : β → α) (l : List β) :
    cyclicSum f (l.map q) = cyclicSum (fun s t => f (q s) (q t)) l := by
  unfold cyclicSum
  rw [cyclicPairs_map]
  rw [List.map_map]
  rfl

/-! ## Newell plane fit (`newellPlane` in `src/utils/ToothPicker.ts`) -/

/-- The x-component contribution of one wrapped edge `(pj, pi)`:
`n.x += (pj.y - pi.y) * (pj.z + pi.z)`. -/
def newellX (pj pi : Vec3) : ℝ := (pj.y - pi.y) * (pj.z + pi.z)

/-- `n.y += (pj.z - pi.z) * (pj.x + pi.x)`. -/
def newellY (pj pi : Vec3) : ℝ := (pj.z - pi.z) * (pj.x + pi.x)

/-- `n.z += (pj.x - pi.x) * (pj.y + pi.y)`. -/
def newellZ (pj pi : Vec3) : ℝ := (pj.x - pi.x) * (pj.y + pi.y)

/-- The accumulator vector `n` of `newellPlane` before normalization. -/
def newellAccum (points : List Vec3) : Vec3 :=
  ⟨cyclicSum newellX points, cyclicSum newellY points, cyclicSum newellZ points⟩

/-- Result record of `newellPlane`. -/
structure PlaneFit where
  normal : Vec3
  origin : Vec3

/-- `newellPlane`: Newell accumulation over wrapped consecutive pairs, centroid
of the coordinates, then `n.normalize()`.  (For the empty list the source
divides by zero producing `NaN`; here `x / 0 = 0` gives a junk origin.) -/
def newellPlane (points : List Vec3) : PlaneFit :=
  { normal := v3normalize (newellAccum points)
  , origin := ⟨(points.map Vec3.x).sum / points.length,
               (points.map Vec3.y).sum / points.length,
               (points.map Vec3.z).sum / points.length⟩ }

/-! ## 4×4 matrices (three.js `Matrix4`)

`toLocal` is built by `new THREE.Matrix4().copy(toWorld).invert()`.
three.js `Matrix4.invert` computes the classical adjugate-over-determinant
cofactor expansion and sets every element to `0` when the determinant is `0`;
that is exactly Mathlib's `Matrix.inv` over a field, which we therefore use
as the model of `invert`. -/

/-- three.js `Matrix4` (row-major mathematical indexing; three.js stores
column-major but exposes the same mathematical matrix). -/
abbrev Matrix4 : Type := Matrix (Fin 4) (Fin 4) ℝ

/-- `new THREE.Matrix4().makeBasis(u, v, n).setPosition(origin)`: columns are
the basis vectors, fourth column the translation, last row `(0,0,0,1)`. -/
def makeBasisPos (u v n o : Vec3) : Matrix4 :=
  !![u.x, v.x, n.x, o.x;
     u.y, v.y, n.y, o.y;
     u.z, v.z, n.z, o.z;
     0,   0,   0,   1]

/-- three.js `Vector3.applyMatrix4`: homogeneous transform with division by
the resulting `w` (three.js computes `w = 1 / (e[3]x + e[7]y + e[11]z + e[15])`
and multiplies; for a singular/degenerate matrix the JS result is `NaN`,
here the `1 / 0 = 0` convention produces junk instead). -/
def applyMatrix4 (m : Matrix4) (p : Vec3) : Vec3 :=
  let w := 1 / (m 3 0 * p.x + m 3 1 * p.y + m 3 2 * p.z + m 3 3)
  ⟨(m 0 0 * p.x + m 0 1 * p.y + m 0 2 * p.z + m 0 3) * w,
   (m 1 0 * p.x + m 1 1 * p.y + m 1 2 * p.z + m 1 3) * w,
   (m 2 0 * p.x + m 2 1 * p.y + m 2 2 * p.z + m 2 3) * w⟩

/-- Result record of `buildBasis`. -/
structure BasisFrame where
  u : Vec3
  v : Vec3
  n : Vec3
  origin : Vec3
  toWorld : Matrix4
  toLocal : Matrix4

/-- `buildBasis` (`src/utils/ToothPicker.ts`): provisional up-reference
`(0,1,0)` unless `|n.y| ≥ 0.9` (then `(1,0,0)`), two normalized cross
products, basis matrix with translation, and its inverse. -/
def buildBasis (normal origin : Vec3) : BasisFrame :=
  let n := v3normalize normal
  let t : Vec3 := if |n.y| < 0.9 then ⟨0, 1, 0⟩ else ⟨1, 0, 0⟩
  let u := v3normalize (cross3 n t)
  let v := v3normalize (cross3 n u)
  let toWorld := makeBasisPos u v n origin
  { u := u, v := v, n := n, origin := origin, toWorld := toWorld, toLocal := toWorld⁻¹ }

/-! ## Planes and rays (three.js `Plane`, `Ray`) -/

/-- three.js `Plane`: unit-ish normal and signed constant. -/
structure PlaneEq where
  normal : Vec3
  constant : ℝ

/-- `Plane.setFromNormalAndCoplanarPoint(normal, point)`:
`constant = -point.dot(normal)` (no renormalization). -/
def planeFromNormalAndCoplanarPoint (n p : Vec3) : PlaneEq :=
  ⟨n, -(dot3 p n)⟩

/-- `Plane.distanceToPoint(p) = normal.dot(p) + constant`. -/
def planeDistanceToPoint (pl : PlaneEq) (p : Vec3) : ℝ :=
  dot3 pl.normal p + pl.constant

/-- A ray: origin and direction. -/
structure Ray3 where
  origin : Vec3
  dir : Vec3

/-- `Ray.at(t) = origin + t * direction`. -/
def rayAt (r : Ray3) (t : ℝ) : Vec3 := r.origin + t • r.dir

/-- three.js `Ray.distanceToPlane`: `null` when the ray is parallel and not
coplanar or when the line intersection parameter is negative; parameter `0`
for a coplanar ray. -/
def rayDistanceToPlane (r : Ray3) (pl : PlaneEq) : Option ℝ :=
  let denom := dot3 pl.normal r.dir
  if denom = 0 then
    if planeDistanceToPoint pl r.origin = 0 then some 0 else none
  else
    let t := -(dot3 r.origin pl.normal + pl.constant) / denom
    if 0 ≤ t then some t else none

/-- three.js `Ray.intersectPlane`: the point at the intersection parameter. -/
def rayIntersectPlane (r : Ray3) (pl : PlaneEq) : Option Vec3 :=
  (rayDistanceToPlane r pl).map (rayAt r)

/-! ## 2D classifier (`pointInPolygon2D`, `pointToSegmentDistance2D`,
`distanceToPolygon2D`) -/

/-- One edge test of `pointInPolygon2D` with `a = poly[i]` (current) and
`b = poly[j]` (previous); the `&&` of the source short-circuits, so the
division is only evaluated under the parity condition. -/
def pipEdge (p a b : Vec2) : Bool :=
  if (a.y > p.y) ≠ (b.y > p.y) then
    if p.x < (b.x - a.x) * (p.y - a.y) / (b.y - a.y) + a.x then true else false
  else false

/-- `pointInPolygon2D`: ray-crossing parity over the wrapped edges. -/
def pointInPolygon2D (p : Vec2) (poly : List Vec2) : Bool :=
  (cyclicPairs poly).foldl
    (fun inside q => if pipEdge p q.2 q.1 then !inside else inside) false

/-- `pointToSegmentDistance2D`: projection parameter clamped to `[0,1]`, with
the `|| 1e-8` guard against zero-length edges, then `Math.hypot`. -/
def pointToSegmentDistance2D (p a b : Vec2) : ℝ :=
  let abx := b.x - a.x
  let aby := b.y - a.y
  let apx := p.x - a.x
  let apy := p.y - a.y
  let abLen2 := if abx * abx + aby * aby = 0 then 1e-8 else abx * abx + aby * aby
  let t := max 0 (min 1 ((apx * abx + apy * aby) / abLen2))
  let cx := a.x + t * abx
  let cy := a.y + t * aby
  Real.sqrt ((p.x - cx) * (p.x - cx) + (p.y - cy) * (p.y - cy))

/-- `distanceToPolygon2D`: minimum of `pointToSegmentDistance2D(p, poly[j],
poly[i])` over the wrapped edges.  The source starts the minimum at
`Infinity`, which `ℝ` lacks: for a nonempty polygon the fold below computes
the same minimum; for the empty polygon (never produced by the callers,
which require ≥ 3 points) it returns `0` where the source returns
`Infinity`. -/
def distanceToPolygon2D (p : Vec2) (poly : List Vec2) : ℝ :=
  match (cyclicPairs poly).map (fun q => pointToSegmentDistance2D p q.1 q.2) with
  | [] => 0
  | d :: ds => ds.foldl min d

/-! ## `ToothPicker` -/

/-- State of a `ToothPicker` instance (the `THREE.Object3D` fields that the
source reads: `userData.toothId` / `userData.toothNum` are modelled as
optional fields). -/
structure ToothPicker where
  toothNum : ℤ
  plane : PlaneEq
  poly2 : List Vec2
  toWorld : Matrix4
  toLocal : Matrix4
  edgeBuffer : ℝ
  userToothId : Option String
  userToothNum : Option ℤ

/-- Projection of a world point into a picker frame's local 2D coordinates:
`applyMatrix4(toLocal)` then take `(x, y)`. -/
def projectToPlane2 (toLocal : Matrix4) (p : Vec3) : Vec2 :=
  let lp := applyMatrix4 toLocal p
  ⟨lp.x, lp.y⟩

/-- The `ToothPicker` constructor: Newell plane, basis, plane equation from
normal and origin, and the world polygon projected to local 2D. -/
def mkToothPicker (toothNum : ℤ) (polyWorld3 : List Vec3) (edgeBuffer : ℝ) :
    ToothPicker :=
  let pf := newellPlane polyWorld3
  let basis := buildBasis pf.normal pf.origin
  { toothNum := toothNum
  , plane := planeFromNormalAndCoplanarPoint pf.normal pf.origin
  , poly2 := polyWorld3.map (fun p => projectToPlane2 basis.toLocal p)
  , toWorld := basis.toWorld
  , toLocal := basis.toLocal
  , edgeBuffer := edgeBuffer
  , userToothId := none
  , userToothNum := some toothNum }

/-- A raycast hit record (the `distance` and `point` fields the source pushes
into `intersects`). -/
structure RayHit where
  distance : ℝ
  point : Vec3

/-- `ToothPicker.raycast`: intersect the ray with the fitted plane, reject
outside `[near, far]`, project to local 2D, accept if inside the polygon or
within `edgeBuffer` of its boundary.  Returns `none` for a miss (the source
simply does not push a hit). -/
def ToothPicker.raycast (pk : ToothPicker) (ray : Ray3) (near far : ℝ) :
    Option RayHit :=
  match rayIntersectPlane ray pk.plane with
  | none => none
  | some hit =>
    let dist := dist3 ray.origin hit
    if dist < near ∨ dist > far then none
    else
      let p2 := projectToPlane2 pk.toLocal hit
      if pointInPolygon2D p2 pk.poly2 = true ∨
          distanceToPolygon2D p2 pk.poly2 ≤ pk.edgeBuffer then
        some ⟨dist, hit⟩
      else none

/-! ## Annotation document model (`src/types.ts`) -/

/-- One tooth record.  `spline` is optional because the source guards with
`!t.spline`. -/
structure ToothCenter where
  prep : ℤ
  num : ℤ
  center : ℝ × ℝ × ℝ
  spline : Option (List (ℝ × ℝ × ℝ))

/-- One mesh annotation document. -/
structure MeshJSON where
  is_lower : Bool
  centers : List (String × ToothCenter)

/-- `[x, y, z]` triple to `Vector3`. -/
def tripleToVec3 (p : ℝ × ℝ × ℝ) : Vec3 := ⟨p.1, p.2.1, p.2.2⟩

/-- The optional `transformPoint` hook of the picker builders. -/
def applyTransform (tf : Option ((ℝ × ℝ × ℝ) → (ℝ × ℝ × ℝ)))
    (pt : ℝ × ℝ × ℝ) : ℝ × ℝ × ℝ :=
  match tf with
  | some f => f pt
  | none => pt

/-- The picker built for entry `(id, t)` by `buildToothPickersById`:
the constructor on the transformed spline points, then
`picker.userData.toothId = id; picker.userData.toothNum = t.num`. -/
def mkToothPickerById (id : String) (t : ToothCenter) (s : List (ℝ × ℝ × ℝ))
    (tf : Option ((ℝ × ℝ × ℝ) → (ℝ × ℝ × ℝ))) (edgeBuffer : ℝ) : ToothPicker :=
  let pts3 := s.map (fun pt => tripleToVec3 (applyTransform tf pt))
  { mkToothPicker t.num pts3 edgeBuffer with
      userToothId := some id
      userToothNum := some t.num }

/-- The loop body of `buildToothPickersById`: skip entries whose `prep` is
not `1`, whose `spline` is missing, or whose `spline` has fewer than 3
points; otherwise build and tag a picker. -/
def buildPickersLoop (tf : Option ((ℝ × ℝ × ℝ) → (ℝ × ℝ × ℝ))) (edgeBuffer : ℝ) :
    List (String × ToothCenter) → List ToothPicker
  | [] => []
  | (id, t) :: rest =>
    if t.prep ≠ 1 then buildPickersLoop tf edgeBuffer rest
    else
      match t.spline with
      | none => buildPickersLoop tf edgeBuffer rest
      | some s =>
        if s.length < 3 then buildPickersLoop tf edgeBuffer rest
        else mkToothPickerById id t s tf edgeBuffer :: buildPickersLoop tf edgeBuffer rest

/-- `buildToothPickersById` over `Object.entries(json.centers)`. -/
def buildToothPickersById (json : MeshJSON)
    (tf : Option ((ℝ × ℝ × ℝ) → (ℝ × ℝ × ℝ))) (edgeBuffer : ℝ) : List ToothPicker :=
  buildPickersLoop tf edgeBuffer json.centers

/-! ## Registry builder characterization (claim C2) -/

/-- The spec-side guard of §4.7: an entry is pickable iff its `prep` flag is
`1` and its boundary loop is present with at least 3 points. -/
def pickableEntry (e : String × ToothCenter) : Bool :=
  decide (e.2.prep = 1) &&
    match e.2.spline with
    | none => false
    | some s => decide (3 ≤ s.length)

/-- The picker an entry contributes when it is pickable. -/
def entryPicker (tf : Option ((ℝ × ℝ × ℝ) → (ℝ × ℝ × ℝ))) (eb : ℝ)
    (e : String × ToothCenter) : ToothPicker :=
  mkToothPickerById e.1 e.2 (e.2.spline.getD []) tf eb

theorem buildPickersLoop_eq_filter_map (tf : Option ((ℝ × ℝ × ℝ) → (ℝ × ℝ × ℝ)))
    (eb : ℝ) (l : List (String × ToothCenter)) :
    buildPickersLoop tf eb l = (l.filter pickableEntry).map (entryPicker tf eb) := by
  induction l with
  | nil => rfl
  | cons e rest ih =>
    obtain ⟨id, t⟩ := e
    by_cases hp : t.prep = 1
    · cases hs : t.spline with
      | none =>
        simp only [buildPickersLoop, hp, hs, ne_eq, not_true_eq_false, if_false, ih]
        rw [List.filter_cons_of_neg]
        simp [pickableEntry, hp, hs]
      | some s =>
        by_cases hl : s.length < 3
        · simp only [buildPickersLoop, hp, hs, ne_eq, not_true_eq_false, if_false,
            if_pos hl, ih]
          rw [List.filter_cons_of_neg]
          simp [pickableEntry, hp, hs]
          omega
        · simp only [buildPickersLoop, hp, hs, ne_eq, not_true_eq_false, if_false,
            if_neg hl, ih]
          rw [List.filter_cons_of_pos]
          · simp [entryPicker, hs]
          · simp [pickableEntry, hp, hs]
            omega
    · simp only [buildPickersLoop, ne_eq, hp, not_false_eq_true, if_true, ih]
      rw [List.filter_cons_of_neg]
      simp [pickableEntry, hp]

/-- C2: `buildToothPickersById` yields exactly one picker per entry whose
`prep` flag is `1` and whose spline has at least 3 points (all other entries
— non-defective, missing spline, degenerate loop — are skipped), and each
picker carries its owning entry's identifier in `userData.toothId`.  All
operations are total, so no entry can cause an error. -/
theorem buildToothPickersById_spec (json : MeshJSON)
    (tf : Option ((ℝ × ℝ × ℝ) → (ℝ × ℝ × ℝ))) (eb : ℝ) :
    buildToothPickersById json tf eb =
      (json.centers.filter pickableEntry).map (entryPicker tf eb) ∧
    (buildToothPickersById json tf eb).map (fun pk => pk.userToothId) =
      (json.centers.filter pickableEntry).map (fun e => some e.1) := by
  have h := buildPickersLoop_eq_filter_map tf eb json.centers
  refine ⟨h, ?_⟩
  rw [buildToothPickersById] at *
  rw [h, List.map_map]
  rfl

/-! ## Guarded division in the ray-crossing test (claim C10) -/

/-- Variant of the per-edge test that reports `none` if the division by
`b.y - a.y` would be evaluated with a zero divisor (mirroring the
short-circuit structure of the source's `&&`). -/
def pipEdgeChecked (p a b : Vec2) : Option Bool :=
  if (a.y > p.y) ≠ (b.y > p.y) then
    if b.y - a.y = 0 then none
    else some (decide (p.x < (b.x - a.x) * (p.y - a.y) / (b.y - a.y) + a.x))
  else some false

/-- Variant of `pointInPolygon2D` that propagates a division-by-zero report. -/
def pointInPolygon2DChecked (p : Vec2) (poly : List Vec2) : Option Bool :=
  (cyclicPairs poly).foldl
    (fun acc q => acc.bind (fun inside =>
      (pipEdgeChecked p q.2 q.1).map (fun e => if e then !inside else inside)))
    (some false)

/-- When the two edge endpoints straddle the horizontal line through `p`,
the divisor `b.y - a.y` cannot be zero. -/
theorem straddle_divisor_ne (p a b : Vec2) (h : (a.y > p.y) ≠ (b.y > p.y)) :
    b.y - a.y ≠ 0 := by
  intro hz
  exact h (by rw [show b.y = a.y by linarith])

theorem pipEdgeChecked_eq (p a b : Vec2) :
    pipEdgeChecked p a b = some (pipEdge p a b) := by
  unfold pipEdge pipEdgeChecked
  by_cases h : (a.y > p.y) ≠ (b.y > p.y)
  · rw [if_pos h, if_pos h, if_neg (straddle_divisor_ne p a b h)]
    by_cases hx : p.x < (b.x - a.x) * (p.y - a.y) / (b.y - a.y) + a.x
    · simp [hx]
    · simp [hx]
  · rw [if_neg h, if_neg h]

theorem pipChecked_foldl (p : Vec2) (l : List (Vec2 × Vec2)) :
    ∀ init : Bool,
      l.foldl (fun acc q => acc.bind (fun inside =>
          (pipEdgeChecked p q.2 q.1).map (fun e => if e then !inside else inside)))
        (some init) =
      some (l.foldl (fun inside q => if pipEdge p q.2 q.1 then !inside else inside)
        init) := by
  induction l with
  | nil => intro init; rfl
  | cons q rest ih =>
    intro init
    simp only [List.foldl_cons]
    have hstep :
        ((some init).bind (fun inside =>
          (pipEdgeChecked p q.2 q.1).map (fun e => if e then !inside else inside))) =
        some (if pipEdge p q.2 q.1 then !init else init) := by
      rw [Option.some_bind, pipEdgeChecked_eq, Option.map_some']
    rw [hstep]
    exact ih _

/-- C10: the division by `b.y - a.y` in `pointInPolygon2D` is guarded by the
short-circuiting parity condition, under which the divisor is provably
nonzero; consequently the checked evaluation never reports a division by
zero and agrees with `pointInPolygon2D` on every point and every polygon,
including polygons with horizontal or zero-length edges. -/
theorem pointInPolygon2DChecked_eq (p : Vec2) (poly : List Vec2) :
    pointInPolygon2DChecked p poly = some (pointInPolygon2D p poly) ∧
    (∀ a b : Vec2, (a.y > p.y) ≠ (b.y > p.y) → b.y - a.y ≠ 0) := by
  refine ⟨?_, fun a b h => straddle_divisor_ne p a b h⟩
  unfold pointInPolygon2DChecked pointInPolygon2D
  exact pipChecked_foldl p (cyclicPairs poly) false

/-- Witness for C10 on the unit-square polygon (which has horizontal edges)
at the interior point `(1,1)`: the checked evaluation agrees, and on the
square's left edge — whose endpoints straddle the horizontal line through
the point — the divisor is nonzero. -/
theorem pointInPolygon2DChecked_eq_witness :
    (pointInPolygon2DChecked ⟨1, 1⟩ [⟨0, 0⟩, ⟨2, 0⟩, ⟨2, 2⟩, ⟨0, 2⟩] =
      some (pointInPolygon2D ⟨1, 1⟩ [⟨0, 0⟩, ⟨2, 0⟩, ⟨2, 2⟩, ⟨0, 2⟩])) ∧
    (((⟨0, 2⟩ : Vec2).y > (⟨1, 1⟩ : Vec2).y) ≠ ((⟨0, 0⟩ : Vec2).y > (⟨1, 1⟩ : Vec2).y)) ∧
    (⟨0, 0⟩ : Vec2).y - (⟨0, 2⟩ : Vec2).y ≠ 0 := by
  have hstr : ((⟨0, 2⟩ : Vec2).y > (⟨1, 1⟩ : Vec2).y) ≠
      ((⟨0, 0⟩ : Vec2).y > (⟨1, 1⟩ : Vec2).y) := by
    simp only [Vec2.v2mk_y, ne_eq, eq_iff_iff]
    norm_num
  exact ⟨(pointInPolygon2DChecked_eq ⟨1, 1⟩ [⟨0, 0⟩, ⟨2, 0⟩, ⟨2, 2⟩, ⟨0, 2⟩]).1, hstr,
    (pointInPolygon2DChecked_eq ⟨1, 1⟩ [⟨0, 0⟩, ⟨2, 0⟩, ⟨2, 2⟩, ⟨0, 2⟩]).2
      ⟨0, 2⟩ ⟨0, 0⟩ hstr⟩

/-! ## Newell accumulator: reversal and collinearity (claims C3, C6) -/

theorem newellAccum_reverse (l : List Vec3) :
    newellAccum l.reverse = -(newellAccum l) := by
  apply Vec3.ext3
  · simpa [newellAccum] using
      cyclicSum_reverse newellX (fun a b => by simp only [newellX]; ring) l
  · simpa [newellAccum] using
      cyclicSum_reverse newellY (fun a b => by simp only [newellY]; ring) l
  · simpa [newellAccum] using
      cyclicSum_reverse newellZ (fun a b => by simp only [newellZ]; ring) l

theorem newellPlane_reverse_origin (l : List Vec3) :
    (newellPlane l.reverse).origin = (newellPlane l).origin := by
  simp [newellPlane, List.map_reverse, List.sum_reverse, List.length_reverse]

theorem newellPlane_reverse_normal (l : List Vec3) :
    (newellPlane l.reverse).normal = -((newellPlane l).normal) := by
  simp only [newellPlane]
  rw [newellAccum_reverse, v3normalize_neg]

/-- C3 (amended): for a loop of length ≥ 3 whose Newell accumulator is
nonzero, the fitted normal has unit length; and reversing the point order
preserves the centroid and flips the normal's sign. -/
theorem newellPlane_unit_and_reverse (l : List Vec3) (_h3 : 3 ≤ l.length)
    (hacc : newellAccum l ≠ 0) :
    norm3 (newellPlane l).normal = 1 ∧
    (newellPlane l.reverse).origin = (newellPlane l).origin ∧
    (newellPlane l.reverse).normal = -((newellPlane l).normal) := by
  refine ⟨?_, newellPlane_reverse_origin l, newellPlane_reverse_normal l⟩
  simp only [newellPlane]
  exact norm3_normalize hacc

/-- The all-collinear 3-point loop `[(0,0,0), (1,0,0), (2,0,0)]`. -/
def collinearLoop : List Vec3 := [⟨0, 0, 0⟩, ⟨1, 0, 0⟩, ⟨2, 0, 0⟩]

theorem newellAccum_collinearLoop : newellAccum collinearLoop = 0 := by
  have hcp : cyclicPairs collinearLoop =
      [(⟨2, 0, 0⟩, ⟨0, 0, 0⟩), (⟨0, 0, 0⟩, ⟨1, 0, 0⟩), (⟨1, 0, 0⟩, ⟨2, 0, 0⟩)] := rfl
  apply Vec3.ext3 <;>
    simp [newellAccum, cyclicSum, hcp, newellX, newellY, newellZ]

theorem newellPlane_collinearLoop_normal :
    (newellPlane collinearLoop).normal = 0 := by
  simp [newellPlane, newellAccum_collinearLoop]

/-- C3 counterexample: a boundary loop of length 3 whose points are
collinear; the fitted normal is the zero vector, whose length is 0, not 1. -/
theorem newellPlane_collinear_not_unit :
    3 ≤ collinearLoop.length ∧ norm3 (newellPlane collinearLoop).normal ≠ 1 := by
  constructor
  · simp [collinearLoop]
  · rw [newellPlane_collinearLoop_normal, norm3_zero]
    norm_num

/-- An equilateral-ish test triangle with a nonzero Newell accumulator. -/
def triangleLoop : List Vec3 := [⟨0, 0, 0⟩, ⟨1, 0, 0⟩, ⟨0, 1, 0⟩]

theorem newellAccum_triangleLoop : newellAccum triangleLoop = ⟨0, 0, 1⟩ := by
  have hcp : cyclicPairs triangleLoop =
      [(⟨0, 1, 0⟩, ⟨0, 0, 0⟩), (⟨0, 0, 0⟩, ⟨1, 0, 0⟩), (⟨1, 0, 0⟩, ⟨0, 1, 0⟩)] := rfl
  apply Vec3.ext3 <;>
    simp [newellAccum, cyclicSum, hcp, newellX, newellY, newellZ]

/-- Witness for the amended C3 theorem at the concrete triangle. -/
theorem newellPlane_unit_and_reverse_witness :
    (3 ≤ triangleLoop.length ∧ newellAccum triangleLoop ≠ 0) ∧
    (norm3 (newellPlane triangleLoop).normal = 1 ∧
      (newellPlane triangleLoop.reverse).origin = (newellPlane triangleLoop).origin ∧
      (newellPlane triangleLoop.reverse).normal = -((newellPlane triangleLoop).normal)) := by
  have h3 : 3 ≤ triangleLoop.length := by simp [triangleLoop]
  have hacc : newellAccum triangleLoop ≠ 0 := by
    rw [newellAccum_triangleLoop]
    intro hc
    have := congrArg Vec3.z hc
    simp at this
  exact ⟨⟨h3, hacc⟩, newellPlane_unit_and_reverse triangleLoop h3 hacc⟩

/-! ## Collinear loops build degenerate pickers (claim C6) -/

/-- The Newell accumulator of any loop of collinear points
(`a + s • d` for scalars `s`) is exactly zero: each component is a cyclic
sum of a telescoping function of the parameter. -/
theorem newellAccum_collinear (a d : Vec3) (sl : List ℝ) :
    newellAccum (sl.map (fun s => a + s • d)) = 0 := by
  by_cases h : sl = []
  · subst h
    apply Vec3.ext3 <;> simp [newellAccum, cyclicSum]
  · apply Vec3.ext3
    · simp only [newellAccum, Vec3.mk_x, Vec3.zero_x]
      rw [cyclicSum_map]
      have hfg : (fun s t : ℝ => newellX (a + s • d) (a + t • d)) =
          (fun s t : ℝ => (2 * a.z * d.y * s + d.y * d.z * s ^ 2) -
            (2 * a.z * d.y * t + d.y * d.z * t ^ 2)) := by
        funext s t
        simp only [newellX, Vec3.add_y, Vec3.add_z, Vec3.smul_y, Vec3.smul_z]
        ring
      rw [hfg]
      exact cyclicSum_telescope _ sl h
    · simp only [newellAccum, Vec3.mk_y, Vec3.zero_y]
      rw [cyclicSum_map]
      have hfg : (fun s t : ℝ => newellY (a + s • d) (a + t • d)) =
          (fun s t : ℝ => (2 * a.x * d.z * s + d.z * d.x * s ^ 2) -
            (2 * a.x * d.z * t + d.z * d.x * t ^ 2)) := by
        funext s t
        simp only [newellY, Vec3.add_z, Vec3.add_x, Vec3.smul_z, Vec3.smul_x]
        ring
      rw [hfg]
      exact cyclicSum_telescope _ sl h
    · simp only [newellAccum, Vec3.mk_z, Vec3.zero_z]
      rw [cyclicSum_map]
      have hfg : (fun s t : ℝ => newellZ (a + s • d) (a + t • d)) =
          (fun s t : ℝ => (2 * a.y * d.x * s + d.x * d.y * s ^ 2) -
            (2 * a.y * d.x * t + d.x * d.y * t ^ 2)) := by
        funext s t
        simp only [newellZ, Vec3.add_x, Vec3.add_y, Vec3.smul_x, Vec3.smul_y]
        ring
      rw [hfg]
      exact cyclicSum_telescope _ sl h

/-- C6 (amended): a ≥ 3-point all-collinear boundary loop of a defective
tooth does not raise — every operation is total and three.js `normalize`
maps the zero accumulator to the zero vector — but region construction is
NOT skipped: `buildToothPickersById` still returns a picker for the entry,
and that picker's fitted plane carries the zero (degenerate) normal. -/
theorem buildToothPickersById_collinear_not_skipped
    (id : String) (t : ToothCenter) (tf : Option ((ℝ × ℝ × ℝ) → (ℝ × ℝ × ℝ)))
    (eb : ℝ) (s : List (ℝ × ℝ × ℝ)) (a d : Vec3) (sl : List ℝ)
    (hprep : t.prep = 1) (hspl : t.spline = some s) (hlen : 3 ≤ s.length)
    (hcol : s.map (fun pt => tripleToVec3 (applyTransform tf pt)) =
      sl.map (fun sc => a + sc • d)) :
    buildToothPickersById ⟨false, [(id, t)]⟩ tf eb =
      [mkToothPickerById id t s tf eb] ∧
    (mkToothPickerById id t s tf eb).plane.normal = 0 := by
  have hlen' : ¬ s.length < 3 := by omega
  constructor
  · simp [buildToothPickersById, buildPickersLoop, hprep, hspl, hlen']
  · simp only [mkToothPickerById, mkToothPicker, planeFromNormalAndCoplanarPoint]
    rw [hcol]
    simp only [newellPlane, newellAccum_collinear, v3normalize_zero]

/-- The annotation entry of the C6 counterexample: defective (`prep = 1`)
with a 3-point collinear spline. -/
def collinearCenter : ToothCenter :=
  { prep := 1, num := 4, center := (0, 0, 0)
  , spline := some [(0, 0, 0), (1, 0, 0), (2, 0, 0)] }

/-- A document holding only the collinear entry. -/
def collinearDoc : MeshJSON := ⟨false, [("t1", collinearCenter)]⟩

theorem collinearDoc_build :
    buildToothPickersById collinearDoc none 1 =
      [mkToothPickerById "t1" collinearCenter [(0, 0, 0), (1, 0, 0), (2, 0, 0)] none 1] := by
  simp [buildToothPickersById, buildPickersLoop, collinearDoc, collinearCenter]

theorem collinear_picker_normal :
    (mkToothPickerById "t1" collinearCenter [(0, 0, 0), (1, 0, 0), (2, 0, 0)]
      none 1).plane.normal = 0 := by
  have hpts : ([((0 : ℝ), (0 : ℝ), (0 : ℝ)), (1, 0, 0), (2, 0, 0)]).map
      (fun pt => tripleToVec3 (applyTransform none pt)) = collinearLoop := rfl
  simp only [mkToothPickerById, mkToothPicker, planeFromNormalAndCoplanarPoint]
  rw [hpts]
  simp only [newellPlane, newellAccum_collinearLoop, v3normalize_zero]

/-- C6 counterexample: on a defective tooth whose 3-point spline is
all-collinear (zero-length Newell accumulator), region construction is NOT
skipped — the registry still contains a picker for the loop (with a zero
normal), contradicting the claim that the zero-length normalization is
handled by skipping region construction. -/
theorem buildToothPickersById_collinear_counterexample :
    (buildToothPickersById collinearDoc none 1).length = 1 ∧
    (buildToothPickersById collinearDoc none 1).map (fun pk => pk.plane.normal) = [0] := by
  rw [collinearDoc_build]
  refine ⟨rfl, ?_⟩
  simp only [List.map_cons, List.map_nil, collinear_picker_normal]

/-- Witness for the amended C6 theorem at the concrete collinear entry. -/
theorem buildToothPickersById_collinear_witness :
    (collinearCenter.prep = 1 ∧
      collinearCenter.spline = some [(0, 0, 0), (1, 0, 0), (2, 0, 0)] ∧
      3 ≤ ([((0 : ℝ), (0 : ℝ), (0 : ℝ)), (1, 0, 0), (2, 0, 0)] : List (ℝ × ℝ × ℝ)).length ∧
      ([((0 : ℝ), (0 : ℝ), (0 : ℝ)), (1, 0, 0), (2, 0, 0)]).map
          (fun pt => tripleToVec3 (applyTransform none pt)) =
        ([0, 1, 2] : List ℝ).map (fun sc => (⟨0, 0, 0⟩ : Vec3) + sc • ⟨1, 0, 0⟩)) ∧
    (buildToothPickersById ⟨false, [("t1", collinearCenter)]⟩ none 1 =
        [mkToothPickerById "t1" collinearCenter [(0, 0, 0), (1, 0, 0), (2, 0, 0)] none 1] ∧
      (mkToothPickerById "t1" collinearCenter [(0, 0, 0), (1, 0, 0), (2, 0, 0)] none 1).plane.normal = 0) := by
  have h1 : collinearCenter.prep = 1 := rfl
  have h2 : collinearCenter.spline = some [(0, 0, 0), (1, 0, 0), (2, 0, 0)] := rfl
  have h3 : 3 ≤ ([((0 : ℝ), (0 : ℝ), (0 : ℝ)), (1, 0, 0), (2, 0, 0)] : List (ℝ × ℝ × ℝ)).length := by
    simp
  have h4 : ([((0 : ℝ), (0 : ℝ), (0 : ℝ)), (1, 0, 0), (2, 0, 0)]).map
      (fun pt => tripleToVec3 (applyTransform none pt)) =
      ([0, 1, 2] : List ℝ).map (fun sc => (⟨0, 0, 0⟩ : Vec3) + sc • ⟨1, 0, 0⟩) := by
    simp only [List.map_cons, List.map_nil]
    refine congrArg₂ _ ?_ (congrArg₂ _ ?_ (congrArg₂ _ ?_ rfl)) <;>
      apply Vec3.ext3 <;> simp [tripleToVec3, applyTransform]
  exact ⟨⟨h1, h2, h3, h4⟩,
    buildToothPickersById_collinear_not_skipped "t1" collinearCenter none 1
      [(0, 0, 0), (1, 0, 0), (2, 0, 0)] ⟨0, 0, 0⟩ ⟨1, 0, 0⟩ [0, 1, 2] h1 h2 h3 h4⟩

/-! ## Local frame round trip (claim C4) -/

theorem dot3_smul_left (r : ℝ) (a b : Vec3) : dot3 (r • a) b = r * dot3 a b := by
  simp only [dot3, Vec3.smul_x, Vec3.smul_y, Vec3.smul_z]; ring

theorem dot3_smul_right (r : ℝ) (a b : Vec3) : dot3 a (r • b) = r * dot3 a b := by
  simp only [dot3, Vec3.smul_x, Vec3.smul_y, Vec3.smul_z]; ring

theorem dot3_cross_left (a b : Vec3) : dot3 (cross3 a b) a = 0 := by
  simp only [dot3, cross3, Vec3.mk_x, Vec3.mk_y, Vec3.mk_z]; ring

theorem dot3_cross_right (a b : Vec3) : dot3 (cross3 a b) b = 0 := by
  simp only [dot3, cross3, Vec3.mk_x, Vec3.mk_y, Vec3.mk_z]; ring

theorem dot3_cross_lagrange (a b : Vec3) :
    dot3 (cross3 a b) (cross3 a b) = dot3 a a * dot3 b b - dot3 a b * dot3 a b := by
  simp only [dot3, cross3, Vec3.mk_x, Vec3.mk_y, Vec3.mk_z]; ring

theorem dot3_normalize_self {v : Vec3} (h : v ≠ 0) :
    dot3 (v3normalize v) (v3normalize v) = 1 := by
  have h1 := norm3_normalize h
  rw [norm3] at h1
  exact Real.sqrt_eq_one.mp h1

/-- The explicit inverse of an orthonormal-basis affine matrix: transposed
rotation block and back-rotated negated translation. -/
def invBasisMat (u v n o : Vec3) : Matrix4 :=
  !![u.x, u.y, u.z, -(dot3 u o);
     v.x, v.y, v.z, -(dot3 v o);
     n.x, n.y, n.z, -(dot3 n o);
     0,   0,   0,   1]

set_option maxHeartbeats 1000000 in
theorem invBasisMat_mul (u v n o : Vec3)
    (huu : dot3 u u = 1) (hvv : dot3 v v = 1) (hnn : dot3 n n = 1)
    (huv : dot3 u v = 0) (hun : dot3 u n = 0) (hvn : dot3 v n = 0) :
    invBasisMat u v n o * makeBasisPos u v n o = 1 := by
  simp only [dot3] at huu hvv hnn huv hun hvn
  ext i j
  rw [Matrix.mul_apply, Fin.sum_univ_four]
  fin_cases i <;> fin_cases j <;>
    simp only [invBasisMat, makeBasisPos, dot3, Matrix.cons_val', Matrix.cons_val_zero,
      Matrix.cons_val_one, Matrix.head_cons, Matrix.head_fin_const, Matrix.cons_val_two,
      Matrix.tail_cons, Matrix.empty_val', Matrix.cons_val_fin_one, Matrix.of_apply,
      Matrix.one_apply, Fin.mk_zero, Fin.mk_one] <;>
    norm_num [Fin.ext_iff] <;>
    linarith [huu, hvv, hnn, huv, hun, hvn]

theorem applyMatrix4_affine (m : Matrix4) (h0 : m 3 0 = 0) (h1 : m 3 1 = 0)
    (h2 : m 3 2 = 0) (h3 : m 3 3 = 1) (p : Vec3) :
    applyMatrix4 m p =
      ⟨m 0 0 * p.x + m 0 1 * p.y + m 0 2 * p.z + m 0 3,
       m 1 0 * p.x + m 1 1 * p.y + m 1 2 * p.z + m 1 3,
       m 2 0 * p.x + m 2 1 * p.y + m 2 2 * p.z + m 2 3⟩ := by
  apply Vec3.ext3 <;> simp [applyMatrix4, h0, h1, h2, h3]

theorem applyMatrix4_one (p : Vec3) : applyMatrix4 (1 : Matrix4) p = p := by
  apply Vec3.ext3 <;>
    norm_num [applyMatrix4,
      show (1 : Matrix4) 0 0 = 1 from rfl, show (1 : Matrix4) 0 1 = 0 from rfl,
      show (1 : Matrix4) 0 2 = 0 from rfl, show (1 : Matrix4) 0 3 = 0 from rfl,
      show (1 : Matrix4) 1 0 = 0 from rfl, show (1 : Matrix4) 1 1 = 1 from rfl,
      show (1 : Matrix4) 1 2 = 0 from rfl, show (1 : Matrix4) 1 3 = 0 from rfl,
      show (1 : Matrix4) 2 0 = 0 from rfl, show (1 : Matrix4) 2 1 = 0 from rfl,
      show (1 : Matrix4) 2 2 = 1 from rfl, show (1 : Matrix4) 2 3 = 0 from rfl,
      show (1 : Matrix4) 3 0 = 0 from rfl, show (1 : Matrix4) 3 1 = 0 from rfl,
      show (1 : Matrix4) 3 2 = 0 from rfl, show (1 : Matrix4) 3 3 = 1 from rfl]

theorem applyMatrix4_mul (A B : Matrix4)
    (hA0 : A 3 0 = 0) (hA1 : A 3 1 = 0) (hA2 : A 3 2 = 0) (hA3 : A 3 3 = 1)
    (hB0 : B 3 0 = 0) (hB1 : B 3 1 = 0) (hB2 : B 3 2 = 0) (hB3 : B 3 3 = 1)
    (p : Vec3) :
    applyMatrix4 A (applyMatrix4 B p) = applyMatrix4 (A * B) p := by
  have hab : ∀ j, (A * B) 3 j = B 3 j := by
    intro j
    rw [Matrix.mul_apply, Fin.sum_univ_four, hA0, hA1, hA2, hA3]
    ring
  rw [applyMatrix4_affine B hB0 hB1 hB2 hB3,
      applyMatrix4_affine (A * B) (by rw [hab]; exact hB0) (by rw [hab]; exact hB1)
        (by rw [hab]; exact hB2) (by rw [hab]; exact hB3),
      applyMatrix4_affine A hA0 hA1 hA2 hA3]
  apply Vec3.ext3 <;>
    simp only [Vec3.mk_x, Vec3.mk_y, Vec3.mk_z, Matrix.mul_apply, Fin.sum_univ_four,
      hB0, hB1, hB2, hB3] <;>
    ring

/-- The tangent vectors `buildBasis` derives from a unit normal form an
orthonormal triple with the normal (and the stored `n` is the normal
itself). -/
theorem buildBasis_orthofacts (normal origin : Vec3) (h : norm3 normal = 1) :
    (buildBasis normal origin).n = normal ∧
    dot3 (buildBasis normal origin).u (buildBasis normal origin).u = 1 ∧
    dot3 (buildBasis normal origin).v (buildBasis normal origin).v = 1 ∧
    dot3 (buildBasis normal origin).u (buildBasis normal origin).v = 0 ∧
    dot3 (buildBasis normal origin).u normal = 0 ∧
    dot3 (buildBasis normal origin).v normal = 0 := by
  have hnn : dot3 normal normal = 1 := by
    rw [norm3] at h
    exact Real.sqrt_eq_one.mp h
  have hN : v3normalize normal = normal := by
    have hcond : (if norm3 normal = 0 then 1 else norm3 normal) = 1 := by
      rw [h]; norm_num
    rw [v3normalize, hcond]
    apply Vec3.ext3 <;> simp
  have hrfl_u : (buildBasis normal origin).u =
      v3normalize (cross3 (v3normalize normal)
        (if |(v3normalize normal).y| < 0.9 then ⟨0, 1, 0⟩ else ⟨1, 0, 0⟩)) := rfl
  have hrfl_v : (buildBasis normal origin).v =
      v3normalize (cross3 (v3normalize normal) (buildBasis normal origin).u) := rfl
  have hrfl_n : (buildBasis normal origin).n = v3normalize normal := rfl
  rw [hN] at hrfl_u hrfl_v hrfl_n
  set t : Vec3 := if |normal.y| < 0.9 then (⟨0, 1, 0⟩ : Vec3) else ⟨1, 0, 0⟩ with ht
  have hwpos : 0 < dot3 (cross3 normal t) (cross3 normal t) := by
    by_cases hy : |normal.y| < 0.9
    · have habs := abs_lt.mp hy
      have hexp : dot3 (cross3 normal t) (cross3 normal t) =
          dot3 normal normal - normal.y * normal.y := by
        rw [ht, if_pos hy]
        simp only [dot3, cross3, Vec3.mk_x, Vec3.mk_y, Vec3.mk_z]
        ring
      rw [hexp, hnn]
      nlinarith [habs.1, habs.2]
    · have habs : (0.9 : ℝ) ≤ |normal.y| := le_of_not_lt hy
      have hexp : dot3 (cross3 normal t) (cross3 normal t) =
          normal.z * normal.z + normal.y * normal.y := by
        rw [ht, if_neg hy]
        simp only [dot3, cross3, Vec3.mk_x, Vec3.mk_y, Vec3.mk_z]
        ring
      rw [hexp]
      nlinarith [mul_self_nonneg normal.z, abs_mul_abs_self normal.y, abs_nonneg normal.y]
  have hwz : cross3 normal t ≠ 0 := by
    intro hc
    rw [hc] at hwpos
    norm_num [dot3] at hwpos
  have huu : dot3 (buildBasis normal origin).u (buildBasis normal origin).u = 1 := by
    rw [hrfl_u]
    exact dot3_normalize_self hwz
  have hun : dot3 (buildBasis normal origin).u normal = 0 := by
    rw [hrfl_u, v3normalize_of_ne_zero hwz, dot3_smul_left, dot3_cross_left, mul_zero]
  have hw2 : dot3 (cross3 normal (buildBasis normal origin).u)
      (cross3 normal (buildBasis normal origin).u) = 1 := by
    rw [dot3_cross_lagrange, hnn, huu,
      show dot3 normal (buildBasis normal origin).u =
        dot3 (buildBasis normal origin).u normal from dot3_comm _ _, hun]
    norm_num
  have hw2z : cross3 normal (buildBasis normal origin).u ≠ 0 := by
    intro hc
    rw [hc] at hw2
    norm_num [dot3] at hw2
  have hvv : dot3 (buildBasis normal origin).v (buildBasis normal origin).v = 1 := by
    rw [hrfl_v]
    exact dot3_normalize_self hw2z
  have hvn : dot3 (buildBasis normal origin).v normal = 0 := by
    rw [hrfl_v, v3normalize_of_ne_zero hw2z, dot3_smul_left, dot3_cross_left, mul_zero]
  have huv : dot3 (buildBasis normal origin).u (buildBasis normal origin).v = 0 := by
    rw [hrfl_v, v3normalize_of_ne_zero hw2z, dot3_smul_right,
      show dot3 (buildBasis normal origin).u (cross3 normal (buildBasis normal origin).u) =
        dot3 (cross3 normal (buildBasis normal origin).u) (buildBasis normal origin).u from
        dot3_comm _ _,
      dot3_cross_right, mul_zero]
  exact ⟨hrfl_n, huu, hvv, huv, hun, hvn⟩

/-- C4: for a frame built by `buildBasis` from a unit normal, `toLocal` and
`toWorld` are mutual inverses as matrices, and applying one after the other
returns every world (resp. local) point unchanged. -/
theorem buildBasis_roundtrip (normal origin : Vec3) (h : norm3 normal = 1) :
    ((buildBasis normal origin).toLocal * (buildBasis normal origin).toWorld = 1 ∧
      (buildBasis normal origin).toWorld * (buildBasis normal origin).toLocal = 1) ∧
    ∀ p : Vec3,
      applyMatrix4 (buildBasis normal origin).toLocal
        (applyMatrix4 (buildBasis normal origin).toWorld p) = p ∧
      applyMatrix4 (buildBasis normal origin).toWorld
        (applyMatrix4 (buildBasis normal origin).toLocal p) = p := by
  obtain ⟨hn, huu, hvv, huv, hun, hvn⟩ := buildBasis_orthofacts normal origin h
  have hW : (buildBasis normal origin).toWorld =
      makeBasisPos (buildBasis normal origin).u (buildBasis normal origin).v
        (buildBasis normal origin).n origin := rfl
  have hL : (buildBasis normal origin).toLocal = (buildBasis normal origin).toWorld⁻¹ := rfl
  have hNM : invBasisMat (buildBasis normal origin).u (buildBasis normal origin).v
      (buildBasis normal origin).n origin * (buildBasis normal origin).toWorld = 1 := by
    rw [hW]
    refine invBasisMat_mul _ _ _ _ huu hvv ?_ huv ?_ ?_ <;> rw [hn]
    · exact by rw [norm3] at h; exact Real.sqrt_eq_one.mp h
    · exact hun
    · exact hvn
  have hInv : (buildBasis normal origin).toWorld⁻¹ =
      invBasisMat (buildBasis normal origin).u (buildBasis normal origin).v
        (buildBasis normal origin).n origin := Matrix.inv_eq_left_inv hNM
  have hMN : (buildBasis normal origin).toWorld *
      invBasisMat (buildBasis normal origin).u (buildBasis normal origin).v
        (buildBasis normal origin).n origin = 1 := Matrix.mul_eq_one_comm.mp hNM
  refine ⟨⟨?_, ?_⟩, ?_⟩
  · rw [hL, hInv]
    exact hNM
  · rw [hL, hInv]
    exact hMN
  · intro p
    constructor
    · rw [hL, hInv, hW]
      rw [applyMatrix4_mul _ _ rfl rfl rfl rfl rfl rfl rfl rfl p]
      rw [← hW, hNM, applyMatrix4_one]
    · rw [hL, hInv, hW]
      rw [applyMatrix4_mul _ _ rfl rfl rfl rfl rfl rfl rfl rfl p]
      rw [← hW, hMN, applyMatrix4_one]

/-- Witness for C4 at the unit normal `(0,0,1)` with origin `(1,2,3)`. -/
theorem buildBasis_roundtrip_witness :
    norm3 ⟨0, 0, 1⟩ = 1 ∧
    (((buildBasis ⟨0, 0, 1⟩ ⟨1, 2, 3⟩).toLocal * (buildBasis ⟨0, 0, 1⟩ ⟨1, 2, 3⟩).toWorld = 1 ∧
      (buildBasis ⟨0, 0, 1⟩ ⟨1, 2, 3⟩).toWorld * (buildBasis ⟨0, 0, 1⟩ ⟨1, 2, 3⟩).toLocal = 1) ∧
    ∀ p : Vec3,
      applyMatrix4 (buildBasis ⟨0, 0, 1⟩ ⟨1, 2, 3⟩).toLocal
        (applyMatrix4 (buildBasis ⟨0, 0, 1⟩ ⟨1, 2, 3⟩).toWorld p) = p ∧
      applyMatrix4 (buildBasis ⟨0, 0, 1⟩ ⟨1, 2, 3⟩).toWorld
        (applyMatrix4 (buildBasis ⟨0, 0, 1⟩ ⟨1, 2, 3⟩).toLocal p) = p) := by
  have hdot : dot3 ⟨0, 0, 1⟩ ⟨0, 0, 1⟩ = 1 := by norm_num [dot3]
  have hn : norm3 (⟨0, 0, 1⟩ : Vec3) = 1 := by rw [norm3, hdot, Real.sqrt_one]
  exact ⟨hn, buildBasis_roundtrip ⟨0, 0, 1⟩ ⟨1, 2, 3⟩ hn⟩

/-! ## Raycast contract (claim C1) -/

theorem vec_sub_self (a : Vec3) : a - a = 0 := by
  apply Vec3.ext3 <;> simp

theorem rayAt_zero (r : Ray3) : rayAt r 0 = r.origin := by
  apply Vec3.ext3 <;> simp [rayAt]

theorem dist3_self (a : Vec3) : dist3 a a = 0 := by
  rw [dist3, vec_sub_self, norm3_zero]

theorem dot3_ray_linear (n o d : Vec3) (t : ℝ) :
    dot3 n (o + t • d) = dot3 n o + t * dot3 n d := by
  simp only [dot3, Vec3.add_x, Vec3.add_y, Vec3.add_z, Vec3.smul_x, Vec3.smul_y,
    Vec3.smul_z]
  ring

/-- When the ray is not parallel to the plane, a ray point on the plane is at
the unique parameter computed by `rayDistanceToPlane`. -/
theorem plane_ray_param_unique (pl : PlaneEq) (r : Ray3)
    (hden : dot3 pl.normal r.dir ≠ 0) (t : ℝ)
    (hp : planeDistanceToPoint pl (rayAt r t) = 0) :
    t = -(dot3 r.origin pl.normal + pl.constant) / dot3 pl.normal r.dir := by
  rw [planeDistanceToPoint, rayAt, dot3_ray_linear] at hp
  rw [eq_div_iff hden, dot3_comm r.origin pl.normal]
  linarith

theorem plane_ray_param_sat (pl : PlaneEq) (r : Ray3)
    (hden : dot3 pl.normal r.dir ≠ 0) :
    planeDistanceToPoint pl
      (rayAt r (-(dot3 r.origin pl.normal + pl.constant) / dot3 pl.normal r.dir)) = 0 := by
  rw [planeDistanceToPoint, rayAt, dot3_ray_linear, div_mul_cancel₀ _ hden,
    dot3_comm pl.normal r.origin]
  ring

/-- The spec-side hit predicate of §4.5: the ray is not parallel to the
picker's fitted plane, and some ray point (nonnegative parameter) lies on the
plane at a distance within `[near, far]` whose local-frame projection is
inside the projected polygon or within `edgeBuffer` of its boundary. -/
def raycastSpecHit (pk : ToothPicker) (ray : Ray3) (near far : ℝ) : Prop :=
  dot3 pk.plane.normal ray.dir ≠ 0 ∧
  ∃ t : ℝ, 0 ≤ t ∧ planeDistanceToPoint pk.plane (rayAt ray t) = 0 ∧
    near ≤ dist3 ray.origin (rayAt ray t) ∧ dist3 ray.origin (rayAt ray t) ≤ far ∧
    (pointInPolygon2D (projectToPlane2 pk.toLocal (rayAt ray t)) pk.poly2 = true ∨
      distanceToPolygon2D (projectToPlane2 pk.toLocal (rayAt ray t)) pk.poly2 ≤
        pk.edgeBuffer)

/-- C1: for valid distance bounds (`0 < near`), `ToothPicker.raycast` reports
a hit exactly when the spec-side predicate holds (ray–plane intersection at a
distance within `[near, far]`, accepted by the inside-or-near-edge
classifier); a reported hit carries the distance along the ray and the
world-space intersection point; in every other case (parallel ray,
out-of-bounds distance, classifier miss) it reports `none` — it is a total
function, so it can never throw. -/
theorem raycast_spec (pk : ToothPicker) (ray : Ray3) (near far : ℝ)
    (hnear : 0 < near) :
    ((pk.raycast ray near far).isSome ↔ raycastSpecHit pk ray near far) ∧
    ∀ h : RayHit, pk.raycast ray near far = some h →
      (∃ t : ℝ, 0 ≤ t ∧ h.point = rayAt ray t) ∧
      planeDistanceToPoint pk.plane h.point = 0 ∧
      h.distance = dist3 ray.origin h.point ∧
      near ≤ h.distance ∧ h.distance ≤ far ∧
      (pointInPolygon2D (projectToPlane2 pk.toLocal h.point) pk.poly2 = true ∨
        distanceToPolygon2D (projectToPlane2 pk.toLocal h.point) pk.poly2 ≤
          pk.edgeBuffer) := by
  by_cases hden : dot3 pk.plane.normal ray.dir = 0
  · have hrc : pk.raycast ray near far = none := by
      by_cases hcop : planeDistanceToPoint pk.plane ray.origin = 0
      · have hdp : rayDistanceToPlane ray pk.plane = some 0 := by
          simp only [rayDistanceToPlane, if_pos hden, if_pos hcop]
        have hIP : rayIntersectPlane ray pk.plane = some (rayAt ray 0) := by
          simp only [rayIntersectPlane, hdp, Option.map_some']
        simp only [ToothPicker.raycast, hIP, rayAt_zero, dist3_self]
        rw [if_pos (Or.inl hnear)]
      · have hdp : rayDistanceToPlane ray pk.plane = none := by
          simp only [rayDistanceToPlane, if_pos hden, if_neg hcop]
        have hIP : rayIntersectPlane ray pk.plane = none := by
          simp only [rayIntersectPlane, hdp, Option.map_none']
        simp only [ToothPicker.raycast, hIP]
    refine ⟨?_, ?_⟩
    · rw [hrc]
      simp only [Option.isSome_none, Bool.false_eq_true, false_iff]
      rintro ⟨h1, -⟩
      exact h1 hden
    · intro h hh
      rw [hrc] at hh
      cases hh
  · set tstar := -(dot3 ray.origin pk.plane.normal + pk.plane.constant) /
      dot3 pk.plane.normal ray.dir with htstar
    have hsat : planeDistanceToPoint pk.plane (rayAt ray tstar) = 0 := by
      rw [htstar]
      exact plane_ray_param_sat pk.plane ray hden
    by_cases ht : 0 ≤ tstar
    · have hdp : rayDistanceToPlane ray pk.plane = some tstar := by
        simp only [rayDistanceToPlane, if_neg hden]
        rw [← htstar, if_pos ht]
      have hIP : rayIntersectPlane ray pk.plane = some (rayAt ray tstar) := by
        simp only [rayIntersectPlane, hdp, Option.map_some']
      by_cases hbound : dist3 ray.origin (rayAt ray tstar) < near ∨
          dist3 ray.origin (rayAt ray tstar) > far
      · have hrc : pk.raycast ray near far = none := by
          simp only [ToothPicker.raycast, hIP]
          rw [if_pos hbound]
        refine ⟨?_, ?_⟩
        · rw [hrc]
          simp only [Option.isSome_none, Bool.false_eq_true, false_iff]
          rintro ⟨-, t, ht0, hpl, hn, hf, -⟩
          have hteq : t = tstar := by
            rw [htstar]
            exact plane_ray_param_unique pk.plane ray hden t hpl
          rw [hteq] at hn hf
          rcases hbound with hb | hb <;> linarith
        · intro h hh
          rw [hrc] at hh
          cases hh
      · by_cases hacc : pointInPolygon2D (projectToPlane2 pk.toLocal (rayAt ray tstar))
            pk.poly2 = true ∨
            distanceToPolygon2D (projectToPlane2 pk.toLocal (rayAt ray tstar)) pk.poly2 ≤
              pk.edgeBuffer
        · have hrc : pk.raycast ray near far =
              some ⟨dist3 ray.origin (rayAt ray tstar), rayAt ray tstar⟩ := by
            simp only [ToothPicker.raycast, hIP]
            rw [if_neg hbound, if_pos hacc]
          have hnle : near ≤ dist3 ray.origin (rayAt ray tstar) := by
            by_contra hc
            exact hbound (Or.inl (lt_of_not_le hc))
          have hfle : dist3 ray.origin (rayAt ray tstar) ≤ far := by
            by_contra hc
            exact hbound (Or.inr (lt_of_not_le hc))
          refine ⟨?_, ?_⟩
          · rw [hrc]
            simp only [Option.isSome_some, true_iff]
            exact ⟨hden, tstar, ht, hsat, hnle, hfle, hacc⟩
          · intro h hh
            rw [hrc] at hh
            injection hh with he
            subst he
            exact ⟨⟨tstar, ht, rfl⟩, hsat, rfl, hnle, hfle, hacc⟩
        · have hrc : pk.raycast ray near far = none := by
            simp only [ToothPicker.raycast, hIP]
            rw [if_neg hbound, if_neg hacc]
          refine ⟨?_, ?_⟩
          · rw [hrc]
            simp only [Option.isSome_none, Bool.false_eq_true, false_iff]
            rintro ⟨-, t, ht0, hpl, hn, hf, hc⟩
            have hteq : t = tstar := by
              rw [htstar]
              exact plane_ray_param_unique pk.plane ray hden t hpl
            rw [hteq] at hc
            exact hacc hc
          · intro h hh
            rw [hrc] at hh
            cases hh
    · have hdp : rayDistanceToPlane ray pk.plane = none := by
        simp only [rayDistanceToPlane, if_neg hden]
        rw [← htstar, if_neg ht]
      have hIP : rayIntersectPlane ray pk.plane = none := by
        simp only [rayIntersectPlane, hdp, Option.map_none']
      have hrc : pk.raycast ray near far = none := by
        simp only [ToothPicker.raycast, hIP]
      refine ⟨?_, ?_⟩
      · rw [hrc]
        simp only [Option.isSome_none, Bool.false_eq_true, false_iff]
        rintro ⟨-, t, ht0, hpl, -⟩
        have hteq : t = tstar := by
          rw [htstar]
          exact plane_ray_param_unique pk.plane ray hden t hpl
        rw [hteq] at ht0
        exact ht ht0
      · intro h hh
        rw [hrc] at hh
        cases hh

/-- Witness for C1 at a concrete picker (the spec's square example), ray and
bounds. -/
theorem raycast_spec_witness :
    (0 : ℝ) < 1 ∧
    (((mkToothPicker 1 [⟨0, 0, 0⟩, ⟨2, 0, 0⟩, ⟨2, 2, 0⟩, ⟨0, 2, 0⟩] 1).raycast
        ⟨⟨1, 1, 5⟩, ⟨0, 0, -1⟩⟩ 1 100).isSome ↔
      raycastSpecHit (mkToothPicker 1 [⟨0, 0, 0⟩, ⟨2, 0, 0⟩, ⟨2, 2, 0⟩, ⟨0, 2, 0⟩] 1)
        ⟨⟨1, 1, 5⟩, ⟨0, 0, -1⟩⟩ 1 100) ∧
    ∀ h : RayHit,
      (mkToothPicker 1 [⟨0, 0, 0⟩, ⟨2, 0, 0⟩, ⟨2, 2, 0⟩, ⟨0, 2, 0⟩] 1).raycast
        ⟨⟨1, 1, 5⟩, ⟨0, 0, -1⟩⟩ 1 100 = some h →
      (∃ t : ℝ, 0 ≤ t ∧ h.point = rayAt ⟨⟨1, 1, 5⟩, ⟨0, 0, -1⟩⟩ t) ∧
      planeDistanceToPoint
        (mkToothPicker 1 [⟨0, 0, 0⟩, ⟨2, 0, 0⟩, ⟨2, 2, 0⟩, ⟨0, 2, 0⟩] 1).plane h.point = 0 ∧
      h.distance = dist3 ⟨1, 1, 5⟩ h.point ∧
      1 ≤ h.distance ∧ h.distance ≤ 100 ∧
      (pointInPolygon2D (projectToPlane2
          (mkToothPicker 1 [⟨0, 0, 0⟩, ⟨2, 0, 0⟩, ⟨2, 2, 0⟩, ⟨0, 2, 0⟩] 1).toLocal h.point)
          (mkToothPicker 1 [⟨0, 0, 0⟩, ⟨2, 0, 0⟩, ⟨2, 2, 0⟩, ⟨0, 2, 0⟩] 1).poly2 = true ∨
        distanceToPolygon2D (projectToPlane2
          (mkToothPicker 1 [⟨0, 0, 0⟩, ⟨2, 0, 0⟩, ⟨2, 2, 0⟩, ⟨0, 2, 0⟩] 1).toLocal h.point)
          (mkToothPicker 1 [⟨0, 0, 0⟩, ⟨2, 0, 0⟩, ⟨2, 2, 0⟩, ⟨0, 2, 0⟩] 1).poly2 ≤
          (mkToothPicker 1 [⟨0, 0, 0⟩, ⟨2, 0, 0⟩, ⟨2, 2, 0⟩, ⟨0, 2, 0⟩] 1).edgeBuffer) := by
  exact ⟨by norm_num,
    raycast_spec (mkToothPicker 1 [⟨0, 0, 0⟩, ⟨2, 0, 0⟩, ⟨2, 2, 0⟩, ⟨0, 2, 0⟩] 1)
      ⟨⟨1, 1, 5⟩, ⟨0, 0, -1⟩⟩ 1 100 (by norm_num)⟩

/-! ## Sleeve geometry builder (`HollowSleeveOnSpline` in
`src/pages/UploadPage.tsx`, claims C7 and C8)

The component's `useMemo` body inlines the same Newell accumulation and
basis construction as `newellPlane`/`buildBasis` (identical formulas), so
the embedding reuses those definitions for the inlined steps. -/

theorem norm2_nonneg (v : Vec2) : 0 ≤ norm2 v := Real.sqrt_nonneg _

theorem norm2_eq_zero_iff (v : Vec2) : norm2 v = 0 ↔ v = 0 := by
  rw [norm2, Real.sqrt_eq_zero (by nlinarith [mul_self_nonneg v.x, mul_self_nonneg v.y])]
  constructor
  · intro h
    have hx : v.x = 0 := by nlinarith [mul_self_nonneg v.x, mul_self_nonneg v.y]
    have hy : v.y = 0 := by nlinarith [mul_self_nonneg v.x, mul_self_nonneg v.y]
    exact Vec2.ext2 hx hy
  · intro h
    subst h
    norm_num

/-- `Math.atan2` (the sign conventions of the JS builtin; the value at the
origin is `0`). -/
def atan2 (y x : ℝ) : ℝ :=
  if 0 < x then Real.arctan (y / x)
  else if x < 0 then
    (if 0 ≤ y then Real.arctan (y / x) + Real.pi else Real.arctan (y / x) - Real.pi)
  else
    (if 0 < y then Real.pi / 2 else if y < 0 then -(Real.pi / 2) else 0)

/-- The 2D centroid `c2` of the projected boundary points. -/
def sleeveCentroid2 (pts2 : List Vec2) : Vec2 :=
  ⟨(pts2.map Vec2.x).sum / pts2.length, (pts2.map Vec2.y).sum / pts2.length⟩

/-- Angular sort around the centroid (`Array.prototype.sort` with the
comparator `A.a - B.a` is a stable ascending sort by angle, modelled by
stable `mergeSort`). -/
def sortByAngle (c2 : Vec2) (pts2 : List Vec2) : List Vec2 :=
  ((pts2.map (fun p => (p, atan2 (p.y - c2.y) (p.x - c2.x)))).mergeSort
    (fun A B => decide (A.2 ≤ B.2))).map (fun o => o.1)

/-- The synthesized inner loop: each outer point moved toward the centroid,
`c2 + dir * max(0, 1 - wall / (dir.length() || 1e-8))`. -/
def sleeveInner (wall : ℝ) (c2 : Vec2) (outer : List Vec2) : List Vec2 :=
  outer.map (fun p =>
    let dir := p - c2
    let len := if norm2 dir = 0 then 1e-8 else norm2 dir
    c2 + (max 0 (1 - wall / len)) • dir)

/-- `spline.map(([x,y,z]) => new THREE.Vector3(x,y,z))`. -/
def sleevePts3 (spline : List (ℝ × ℝ × ℝ)) : List Vec3 :=
  spline.map tripleToVec3

/-- The inlined Newell + basis of the component. -/
def sleeveBasis (spline : List (ℝ × ℝ × ℝ)) : BasisFrame :=
  buildBasis (newellPlane (sleevePts3 spline)).normal (newellPlane (sleevePts3 spline)).origin

/-- Projection of the boundary to plane coordinates. -/
def sleevePts2 (spline : List (ℝ × ℝ × ℝ)) : List Vec2 :=
  (sleevePts3 spline).map (fun p => projectToPlane2 (sleeveBasis spline).toLocal p)

/-- The centroid of the projected points. -/
def sleeveC2 (spline : List (ℝ × ℝ × ℝ)) : Vec2 :=
  sleeveCentroid2 (sleevePts2 spline)

/-- The angularly sorted outer loop. -/
def sleeveOuter (spline : List (ℝ × ℝ × ℝ)) : List Vec2 :=
  sortByAngle (sleeveC2 spline) (sleevePts2 spline)

/-- The inner loop the component synthesizes for a given wall thickness. -/
def sleeveInnerOf (spline : List (ℝ × ℝ × ℝ)) (wall : ℝ) : List Vec2 :=
  sleeveInner wall (sleeveC2 spline) (sleeveOuter spline)

/-- The data of the extruded annulus (`THREE.Shape` outer contour, its
holes, extrusion depth, and placement matrix). -/
structure SleeveGeom where
  outer : List Vec2
  inner : List Vec2
  holes : List (List Vec2)
  depth : ℝ
  matrix : Matrix4

/-- The `useMemo` body of `HollowSleeveOnSpline`: `null` geometry for fewer
than 3 points, otherwise the extruded annulus (outer loop, reversed inner
loop as the hole, depth `height`) with the local-to-world placement. -/
def hollowSleeveGeom (spline : List (ℝ × ℝ × ℝ)) (wall height : ℝ) :
    Option SleeveGeom :=
  if (sleevePts3 spline).length < 3 then none
  else
    some { outer := sleeveOuter spline
         , inner := sleeveInnerOf spline wall
         , holes := [(sleeveInnerOf spline wall).reverse]
         , depth := height
         , matrix := (sleeveBasis spline).toWorld }

/-- The rendered mesh (geometry + placement). -/
structure SleeveMesh where
  geom : SleeveGeom
  matrix : Matrix4

/-- The component's render result: `if (!geom) return null;` otherwise a
mesh with the computed geometry and matrix. -/
def hollowSleeveOnSpline (spline : List (ℝ × ℝ × ℝ)) (wall height : ℝ) :
    Option SleeveMesh :=
  match hollowSleeveGeom spline wall height with
  | none => none
  | some g => some ⟨g, g.matrix⟩

/-- C8: a spline with fewer than 3 points produces no geometry and renders
nothing; every operation involved is total, so nothing can throw. -/
theorem hollowSleeve_degenerate (spline : List (ℝ × ℝ × ℝ)) (wall height : ℝ)
    (h : spline.length < 3) :
    hollowSleeveGeom spline wall height = none ∧
    hollowSleeveOnSpline spline wall height = none := by
  have hlen : (sleevePts3 spline).length < 3 := by
    simpa [sleevePts3] using h
  have hg : hollowSleeveGeom spline wall height = none := by
    rw [hollowSleeveGeom, if_pos hlen]
  exact ⟨hg, by rw [hollowSleeveOnSpline, hg]⟩

/-- Witness for C8 at a concrete 2-point spline. -/
theorem hollowSleeve_degenerate_witness :
    ([((0 : ℝ), (0 : ℝ), (0 : ℝ)), (1, 0, 0)] : List (ℝ × ℝ × ℝ)).length < 3 ∧
    (hollowSleeveGeom [((0 : ℝ), (0 : ℝ), (0 : ℝ)), (1, 0, 0)] 0.8 3 = none ∧
      hollowSleeveOnSpline [((0 : ℝ), (0 : ℝ), (0 : ℝ)), (1, 0, 0)] 0.8 3 = none) := by
  have h : ([((0 : ℝ), (0 : ℝ), (0 : ℝ)), (1, 0, 0)] : List (ℝ × ℝ × ℝ)).length < 3 := by
    simp
  exact ⟨h, hollowSleeve_degenerate _ 0.8 3 h⟩

/-- C7: every synthesized inner point is the centroid plus the matching
outer point's offset scaled by `max(0, 1 - wall/dist)` (`dist` the outer
point's distance to the centroid; when that distance is zero the offset is
the zero vector and both sides collapse to the centroid), and for any
`wall ≥ 0` it therefore lies on the segment from the centroid to the outer
point, never crossing past the centroid. -/
theorem sleeve_inner_spec (spline : List (ℝ × ℝ × ℝ)) (wall : ℝ) (hw : 0 ≤ wall) :
    (sleeveInnerOf spline wall).length = (sleeveOuter spline).length ∧
    ∀ i : ℕ, i < (sleeveOuter spline).length →
      (sleeveInnerOf spline wall).getD i ⟨0, 0⟩ =
        sleeveC2 spline +
          (max 0 (1 - wall /
            (if norm2 ((sleeveOuter spline).getD i ⟨0, 0⟩ - sleeveC2 spline) = 0
              then 1e-8
              else norm2 ((sleeveOuter spline).getD i ⟨0, 0⟩ - sleeveC2 spline)))) •
          ((sleeveOuter spline).getD i ⟨0, 0⟩ - sleeveC2 spline) ∧
      ((sleeveInnerOf spline wall).getD i ⟨0, 0⟩ =
        sleeveC2 spline +
          (max 0 (1 - wall / norm2 ((sleeveOuter spline).getD i ⟨0, 0⟩ - sleeveC2 spline))) •
          ((sleeveOuter spline).getD i ⟨0, 0⟩ - sleeveC2 spline)) ∧
      ∃ lam : ℝ, 0 ≤ lam ∧ lam ≤ 1 ∧
        (sleeveInnerOf spline wall).getD i ⟨0, 0⟩ =
          sleeveC2 spline + lam • ((sleeveOuter spline).getD i ⟨0, 0⟩ - sleeveC2 spline) := by
  constructor
  · simp [sleeveInnerOf, sleeveInner]
  · intro i hi
    have hmap : sleeveInnerOf spline wall =
        (sleeveOuter spline).map (fun q =>
          sleeveC2 spline + (max 0 (1 - wall /
            (if norm2 (q - sleeveC2 spline) = 0 then 1e-8
             else norm2 (q - sleeveC2 spline)))) • (q - sleeveC2 spline)) := rfl
    have hlen2 : i < ((sleeveOuter spline).map (fun q =>
          sleeveC2 spline + (max 0 (1 - wall /
            (if norm2 (q - sleeveC2 spline) = 0 then 1e-8
             else norm2 (q - sleeveC2 spline)))) • (q - sleeveC2 spline))).length := by
      simpa using hi
    have hgd : (sleeveInnerOf spline wall).getD i ⟨0, 0⟩ =
        sleeveC2 spline + (max 0 (1 - wall /
          (if norm2 ((sleeveOuter spline).getD i ⟨0, 0⟩ - sleeveC2 spline) = 0 then 1e-8
           else norm2 ((sleeveOuter spline).getD i ⟨0, 0⟩ - sleeveC2 spline)))) •
          ((sleeveOuter spline).getD i ⟨0, 0⟩ - sleeveC2 spline) := by
      rw [hmap, List.getD_eq_getElem _ _ hlen2, List.getElem_map,
        List.getD_eq_getElem _ _ hi]
    set c2 := sleeveC2 spline with hc2
    set p := (sleeveOuter spline).getD i ⟨0, 0⟩ with hp
    have hlenpos : 0 < (if norm2 (p - c2) = 0 then 1e-8 else norm2 (p - c2)) := by
      by_cases h0 : norm2 (p - c2) = 0
      · rw [if_pos h0]; norm_num
      · rw [if_neg h0]
        exact lt_of_le_of_ne (norm2_nonneg _) (Ne.symm h0)
    refine ⟨hgd, ?_, ?_⟩
    · by_cases h0 : norm2 (p - c2) = 0
      · have hdir : p - c2 = 0 := (norm2_eq_zero_iff _).mp h0
        rw [hgd, hdir]
        apply Vec2.ext2 <;> simp
      · rw [hgd, if_neg h0]
    · refine ⟨max 0 (1 - wall /
        (if norm2 (p - c2) = 0 then 1e-8 else norm2 (p - c2))), le_max_left _ _, ?_, hgd⟩
      have hdiv : 0 ≤ wall / (if norm2 (p - c2) = 0 then 1e-8 else norm2 (p - c2)) :=
        div_nonneg hw (le_of_lt hlenpos)
      have h1 : 1 - wall / (if norm2 (p - c2) = 0 then 1e-8 else norm2 (p - c2)) ≤ 1 := by
        linarith
      exact max_le (by norm_num) h1

/-- Witness for C7 at a concrete triangle spline with wall `0.8`, index `0`. -/
theorem sleeve_inner_spec_witness :
    ((0 : ℝ) ≤ 0.8 ∧
      0 < (sleeveOuter [((0 : ℝ), (0 : ℝ), (0 : ℝ)), (4, 0, 0), (0, 4, 0)]).length) ∧
    ∃ lam : ℝ, 0 ≤ lam ∧ lam ≤ 1 ∧
      (sleeveInnerOf [((0 : ℝ), (0 : ℝ), (0 : ℝ)), (4, 0, 0), (0, 4, 0)] 0.8).getD 0 ⟨0, 0⟩ =
        sleeveC2 [((0 : ℝ), (0 : ℝ), (0 : ℝ)), (4, 0, 0), (0, 4, 0)] +
          lam • ((sleeveOuter [((0 : ℝ), (0 : ℝ), (0 : ℝ)), (4, 0, 0), (0, 4, 0)]).getD 0 ⟨0, 0⟩ -
            sleeveC2 [((0 : ℝ), (0 : ℝ), (0 : ℝ)), (4, 0, 0), (0, 4, 0)]) := by
  have hw : (0 : ℝ) ≤ 0.8 := by norm_num
  have hlen : 0 < (sleeveOuter [((0 : ℝ), (0 : ℝ), (0 : ℝ)), (4, 0, 0), (0, 4, 0)]).length := by
    simp [sleeveOuter, sortByAngle, sleevePts2, sleevePts3, List.length_mergeSort]
  exact ⟨⟨hw, hlen⟩,
    ((sleeve_inner_spec [((0 : ℝ), (0 : ℝ), (0 : ℝ)), (4, 0, 0), (0, 4, 0)] 0.8 hw).2
      0 hlen).2.2⟩

/-! ## Display-number editing (`ToothAccordion` in `src/pages/ViewerPage.tsx`,
claim C9) -/

/-- `String.prototype.trim` on a character list. -/
def jsTrim (s : List Char) : List Char :=
  ((s.dropWhile Char.isWhitespace).reverse.dropWhile Char.isWhitespace).reverse

/-- Decimal value of a digit string. -/
def digitsVal (s : List Char) : ℤ :=
  s.foldl (fun acc c => 10 * acc + ((c.toNat : ℤ) - 48)) 0

/-- Model of the JS `Number(raw)` conversion on the draft language: trimmed;
the empty/whitespace string converts to `0`; a nonempty digit string to its
decimal value; anything else to `NaN` (modelled as `none`).  Drafts pass
through `handleChange`, which admits only `""` and `/^[0-9]+$/` matches, so
numeric literal forms beyond plain digit strings (signs, decimals,
exponents, hex) can never reach `handleBlur` and are not modelled. -/
def jsNumber (s : List Char) : Option ℤ :=
  let t := jsTrim s
  if t = [] then some 0
  else if t.all Char.isDigit then some (digitsVal t)
  else none

/-- The `handleChange` gate: `val === "" || /^[0-9]+$/.test(val)`. -/
def handleChangeAccepts (val : List Char) : Bool :=
  val.isEmpty || (!val.isEmpty && val.all Char.isDigit)

/-- What one `handleBlur` call does: nothing, a field-level validation
message, or a committed new number. -/
inductive BlurOutcome where
  | noop : BlurOutcome
  | rejected : String → BlurOutcome
  | commit : ℤ → BlurOutcome
deriving DecidableEq

/-- `handleBlur(id, selected, currentNum)` with `raw = drafts[id] ?? ""`:
no action unless selected; `"Required (1–16)"` when the trimmed draft is
empty; `"Must be 1–16"` when `Number(raw)` is not finite or out of `1–16`;
commit only when the valid value differs from the current one. -/
def handleBlur (selected : Bool) (raw : List Char) (currentNum : ℤ) : BlurOutcome :=
  if selected = false then .noop
  else if jsTrim raw = [] then .rejected "Required (1–16)"
  else
    match jsNumber raw with
    | none => .rejected "Must be 1–16"
    | some n =>
      if n < 1 ∨ n > 16 then .rejected "Must be 1–16"
      else if n ≠ currentNum then .commit n
      else .noop

/-- Keyed lookup in a document's `centers` (JS `centers[id]`). -/
def lookupCenter (doc : MeshJSON) (id : String) : Option ToothCenter :=
  (doc.centers.find? (fun e => e.1 == id)).map (fun e => e.2)

/-- The observable value-level effect of `changeNumA`/`changeNumB`: the
document whose record for `id` carries the new `num` (C5 examines the
sharing/mutation behaviour of the same code; here only the resulting
values matter). -/
def changeNumVal (doc : MeshJSON) (id : String) (n : ℤ) : MeshJSON :=
  { doc with
      centers := doc.centers.map
        (fun e => if e.1 = id then (e.1, { e.2 with num := n }) else e) }

/-- One blur commit step: run `handleBlur` against the record's current
number and apply the committed change, reporting any validation message. -/
def commitBlur (doc : MeshJSON) (id : String) (selected : Bool) (raw : List Char) :
    MeshJSON × Option String :=
  match handleBlur selected raw (((lookupCenter doc id).map ToothCenter.num).getD 0) with
  | .noop => (doc, none)
  | .rejected msg => (doc, some msg)
  | .commit n => (changeNumVal doc id n, none)

theorem lookupCenter_changeNum (doc : MeshJSON) (id : String) (n : ℤ) :
    lookupCenter (changeNumVal doc id n) id =
      (lookupCenter doc id).map (fun t => { t with num := n }) := by
  unfold lookupCenter changeNumVal
  rw [List.find?_map]
  have hp : ((fun e : String × ToothCenter => e.1 == id) ∘
      (fun e : String × ToothCenter => if e.1 = id then (e.1, { e.2 with num := n }) else e)) =
      (fun e : String × ToothCenter => e.1 == id) := by
    funext e
    by_cases h : e.1 = id <;> simp [h]
  rw [hp]
  cases hf : doc.centers.find? (fun e => e.1 == id) with
  | none => simp
  | some e =>
    have he : e.1 = id := by
      have := List.find?_some hf
      simpa using this
    simp [he]

theorem handleBlur_eval (raw : List Char) (cur n : ℤ) (htrim : jsTrim raw ≠ [])
    (hjs : jsNumber raw = some n) :
    handleBlur true raw cur =
      if n < 1 ∨ n > 16 then .rejected "Must be 1–16"
      else if n ≠ cur then .commit n else .noop := by
  simp only [handleBlur]
  rw [if_neg (by simp), if_neg htrim, hjs]

theorem commitBlur_of_rejected {doc : MeshJSON} {id : String} {selected : Bool}
    {raw : List Char} {msg : String}
    (hb : handleBlur selected raw (((lookupCenter doc id).map ToothCenter.num).getD 0) =
      .rejected msg) :
    commitBlur doc id selected raw = (doc, some msg) := by
  simp only [commitBlur, hb]

theorem commitBlur_of_commit {doc : MeshJSON} {id : String} {selected : Bool}
    {raw : List Char} {n : ℤ}
    (hb : handleBlur selected raw (((lookupCenter doc id).map ToothCenter.num).getD 0) =
      .commit n) :
    commitBlur doc id selected raw = (changeNumVal doc id n, none) := by
  simp only [commitBlur, hb]

/-- C9: drafts are gated to empty-or-digit strings by `handleChange`; on
blur of a selected row, an empty draft is rejected with `"Required (1–16)"`,
a non-numeric or out-of-range draft with `"Must be 1–16"` — in both cases
the document (hence the record's `num`) is unchanged — and an in-range value
that differs from the current number is committed, so the record's `num`
reflects the new value. -/
theorem handleBlur_spec (doc : MeshJSON) (id : String) (raw : List Char) :
    (∀ val : List Char,
      handleChangeAccepts val = true ↔ (val = [] ∨ val.all Char.isDigit = true)) ∧
    (raw = [] → commitBlur doc id true raw = (doc, some "Required (1–16)")) ∧
    (jsNumber raw = none → commitBlur doc id true raw = (doc, some "Must be 1–16")) ∧
    (∀ n : ℤ, jsTrim raw ≠ [] → jsNumber raw = some n → (n < 1 ∨ 16 < n) →
      commitBlur doc id true raw = (doc, some "Must be 1–16")) ∧
    (∀ n : ℤ, jsNumber raw = some n → 1 ≤ n → n ≤ 16 →
      n ≠ ((lookupCenter doc id).map ToothCenter.num).getD 0 →
      commitBlur doc id true raw = (changeNumVal doc id n, none) ∧
      ∀ t : ToothCenter, lookupCenter doc id = some t →
        lookupCenter (changeNumVal doc id n) id = some { t with num := n }) := by
  refine ⟨?_, ?_, ?_, ?_, ?_⟩
  · intro val
    cases val with
    | nil => simp [handleChangeAccepts]
    | cons c cs => simp [handleChangeAccepts]
  · intro h
    subst h
    rfl
  · intro hjs
    have htrim : jsTrim raw ≠ [] := by
      intro htr
      rw [jsNumber] at hjs
      simp only [htr, if_pos] at hjs
      exact Option.noConfusion hjs
    apply commitBlur_of_rejected
    simp only [handleBlur]
    rw [if_neg (by simp), if_neg htrim, hjs]
  · intro n htrim hjs hrange
    apply commitBlur_of_rejected
    rw [handleBlur_eval raw _ n htrim hjs]
    exact if_pos hrange
  · intro n hjs h1 h16 hne
    have htrim : jsTrim raw ≠ [] := by
      intro htr
      rw [jsNumber] at hjs
      simp only [htr, if_pos, Option.some.injEq] at hjs
      omega
    have hnr : ¬ (n < 1 ∨ n > 16) := by
      push_neg
      exact ⟨h1, h16⟩
    constructor
    · apply commitBlur_of_commit
      rw [handleBlur_eval raw _ n htrim hjs, if_neg hnr]
      exact if_pos hne
    · intro t hlk
      rw [lookupCenter_changeNum, hlk, Option.map_some']

/-- The tooth record of the C9 witness document (current number 5). -/
def witnessCenter : ToothCenter :=
  { prep := 1, num := 5, center := (0, 0, 0), spline := none }

/-- The C9 witness document. -/
def witnessDoc : MeshJSON := ⟨false, [("a", witnessCenter)]⟩

/-- Witness for C9: on the concrete document, the draft `"17"` is rejected
out-of-range leaving the document unchanged, and the draft `"9"` commits. -/
theorem handleBlur_spec_witness :
    (jsTrim ['1', '7'] ≠ [] ∧ jsNumber ['1', '7'] = some 17 ∧
      ((17 : ℤ) < 1 ∨ (16 : ℤ) < 17)) ∧
    commitBlur witnessDoc "a" true ['1', '7'] = (witnessDoc, some "Must be 1–16") ∧
    (jsNumber ['9'] = some 9 ∧ (1 : ℤ) ≤ 9 ∧ (9 : ℤ) ≤ 16 ∧
      (9 : ℤ) ≠ ((lookupCenter witnessDoc "a").map ToothCenter.num).getD 0) ∧
    commitBlur witnessDoc "a" true ['9'] = (changeNumVal witnessDoc "a" 9, none) := by
  have h17t : jsTrim ['1', '7'] ≠ [] := by decide
  have h17 : jsNumber ['1', '7'] = some 17 := by decide
  have h17r : (17 : ℤ) < 1 ∨ (16 : ℤ) < 17 := by norm_num
  have h9 : jsNumber ['9'] = some 9 := by decide
  have h9a : (1 : ℤ) ≤ 9 := by norm_num
  have h9b : (9 : ℤ) ≤ 16 := by norm_num
  have h9c : (9 : ℤ) ≠ ((lookupCenter witnessDoc "a").map ToothCenter.num).getD 0 := by
    have : ((lookupCenter witnessDoc "a").map ToothCenter.num).getD 0 = 5 := rfl
    rw [this]
    norm_num
  exact ⟨⟨h17t, h17, h17r⟩,
    (handleBlur_spec witnessDoc "a" ['1', '7']).2.2.2.1 17 h17t h17 h17r,
    ⟨h9, h9a, h9b, h9c⟩,
    ((handleBlur_spec witnessDoc "a" ['9']).2.2.2.2 9 h9 h9a h9b h9c).1⟩

/-! ## Sharing and in-place mutation in `changeNumA`/`changeNumB`
(claim C5)

To reason about object identity, the heap model stores tooth records under
numeric references: a document holds `(id, ref)` pairs and the heap maps
each ref to its record.  JavaScript objects are such references; the spread
`{ ...prev, centers: { ...prev.centers } }` copies the two outer layers
only, so the `(id, ref)` pairs — the nested record references — are
carried over unchanged, and `(t as any).num = newNum` writes through the
shared reference. -/

/-- The mutable record store. -/
def Heap : Type := ℕ → ToothCenter

/-- A mesh document as JavaScript sees it: `centers` maps identifiers to
record references. -/
structure MeshDocRef where
  is_lower : Bool
  centers : List (String × ℕ)

/-- `centers[id]` as a reference. -/
def lookupRef (doc : MeshDocRef) (id : String) : Option ℕ :=
  (doc.centers.find? (fun e => e.1 == id)).map (fun e => e.2)

/-- `changeNumA`/`changeNumB` under heap semantics: build the shallow copy
`next` (fresh document and fresh centers map over the SAME record
references), then mutate the looked-up record in place through its shared
reference.  (The source's `if (!prev?.centers) return prev` guard concerns
only an absent document and is outside this model.) -/
def changeNumHeap (h : Heap) (doc : MeshDocRef) (id : String) (n : ℤ) :
    Heap × MeshDocRef :=
  let next : MeshDocRef := { is_lower := doc.is_lower, centers := doc.centers }
  match lookupRef doc id with
  | some r => (Function.update h r { h r with num := n }, next)
  | none => (h, next)

/-- Two documents alias a nested tooth record. -/
def sharesRecordRef (d1 d2 : MeshDocRef) : Prop :=
  ∃ id r, (id, r) ∈ d1.centers ∧ (id, r) ∈ d2.centers

/-- The heap of the C5 counterexample: record `0` (tooth `"a"`, num 5) and
record `1` (tooth `"b"`, num 7). -/
def heap0 : Heap := fun r =>
  if r = 0 then { prep := 1, num := 5, center := (0, 0, 0), spline := none }
  else { prep := 0, num := 7, center := (0, 0, 0), spline := none }

/-- The original document of the C5 counterexample. -/
def docRef0 : MeshDocRef := ⟨false, [("a", 0), ("b", 1)]⟩

/-- C5 counterexample: after editing tooth `"a"`'s display number to 9, the
new document and the original document still alias the same nested record
(reference `0` under key `"a"` in both), and that shared record was mutated
in place: reading the ORIGINAL document's `"a"` record through the post-edit
heap yields 9 where it held 5 — the edit is not copy-on-write at the record
level. -/
theorem changeNum_alias_counterexample :
    sharesRecordRef (changeNumHeap heap0 docRef0 "a" 9).2 docRef0 ∧
    ((changeNumHeap heap0 docRef0 "a" 9).1 0).num = 9 ∧
    (heap0 0).num = 5 := by
  refine ⟨⟨"a", 0, ?_, ?_⟩, ?_, rfl⟩
  · show ("a", 0) ∈ (changeNumHeap heap0 docRef0 "a" 9).2.centers
    have : (changeNumHeap heap0 docRef0 "a" 9).2.centers = docRef0.centers := rfl
    rw [this]
    simp [docRef0]
  · simp [docRef0]
  · have hr : lookupRef docRef0 "a" = some 0 := rfl
    have : (changeNumHeap heap0 docRef0 "a" 9).1 =
        Function.update heap0 0 { heap0 0 with num := 9 } := by
      simp only [changeNumHeap, hr]
    rw [this, Function.update_same]

/-- C5 (amended): the edit produces a fresh top-level document whose
`centers` holds exactly the same `(id, ref)` pairs as before — every nested
tooth record stays aliased between the copy and the original — and mutates
the edited record in place through the shared reference (so the original
document observes the new number), while every other record on the heap is
left untouched. -/
theorem changeNumHeap_spec (h : Heap) (doc : MeshDocRef) (id : String) (n : ℤ) :
    ((changeNumHeap h doc id n).2).centers = doc.centers ∧
    (∀ r : ℕ, lookupRef doc id = some r →
      (changeNumHeap h doc id n).1 r = { h r with num := n } ∧
      ∀ r' : ℕ, r' ≠ r → (changeNumHeap h doc id n).1 r' = h r') ∧
    (lookupRef doc id = none → (changeNumHeap h doc id n).1 = h) := by
  cases hl : lookupRef doc id with
  | none =>
    refine ⟨?_, ?_, ?_⟩
    · simp only [changeNumHeap, hl]
    · intro r hr
      exact Option.noConfusion hr
    · intro _
      simp only [changeNumHeap, hl]
  | some r0 =>
    refine ⟨?_, ?_, ?_⟩
    · simp only [changeNumHeap, hl]
    · intro r hr
      injection hr with hr
      subst hr
      constructor
      · simp only [changeNumHeap, hl]
        rw [Function.update_same]
      · intro r' hne
        simp only [changeNumHeap, hl]
        rw [Function.update_noteq hne]
    · intro hc
      exact Option.noConfusion hc

/-- Witness for the amended C5 theorem at the concrete heap and document. -/
theorem changeNumHeap_spec_witness :
    lookupRef docRef0 "a" = some 0 ∧
    ((changeNumHeap heap0 docRef0 "a" 9).1 0 = { heap0 0 with num := 9 } ∧
      ∀ r' : ℕ, r' ≠ 0 → (changeNumHeap heap0 docRef0 "a" 9).1 r' = heap0 r') := by
  exact ⟨rfl, (changeNumHeap_spec heap0 docRef0 "a" 9).2.1 0 rfl⟩
